import Mathlib

/-!
Verification of the RuleQL rule-evaluation engine (danielrearden/ruleql).

This file gives a shallow embedding of the engine's core:

* the JSON-like mutable execution context (`JVal`) with lodash-style
  dotted-path reads (`_.get`/`_.result`) and writes (`_.set`);
* the condition evaluator (`src/conditions/condition-executor.ts`) with its
  per-`executeAll` DataLoader deduplication cache keyed by
  `name:JSON.stringify(args)`;
* the default condition resolvers (`src/conditions/conditions.ts`);
* the effect executor (`src/effects/effect-executor.ts`) and the default
  effect resolvers used by the claims (`src/effects/effects.ts`);
* the rule orchestrator `processRules` (`src/rule-engine/rule-engine.ts`)
  together with `getPathMap` (`src/utils/index.ts`) and the ECMAScript
  `Object.keys` enumeration order (integer-like keys first, ascending,
  then string keys in insertion order) that it observably depends on.

JavaScript numbers are modeled as exact fractions plus an explicit `nan` value
(double rounding is irrelevant to every claim, which only exercise small
integers); `undefined` is modeled as `Option.none`.  Asynchronous
evaluation is deterministically sequentialized in source order, which is
observably equivalent for the synchronous resolvers involved here: within
one `Promise.all(xs.map(async …))` every branch is started in array order
and runs to completion independently of sibling failures, which the model
mirrors by evaluating every branch and keeping the first error.
-/

/-- Err is the type of runtime error messages (JS exceptions). -/
abbrev Err := String

/-- Q is the exact-fraction model of a JS number: an integer numerator
over a positive integer denominator. Operations deliberately avoid
normalization (no gcd) so that every model computation reduces inside the
Lean kernel; numeric equality and order are defined by cross
multiplication, so representation does not matter. -/
structure Q where
  num : Int
  den : Int

namespace Q

/-- ofInt embeds an integer. -/
def ofInt (i : Int) : Q := ⟨i, 1⟩

instance (n : Nat) : OfNat Q n := ⟨⟨n, 1⟩⟩

/-- add is exact fraction addition. -/
def add (a b : Q) : Q := ⟨a.num * b.den + b.num * a.den, a.den * b.den⟩

instance : Add Q := ⟨add⟩

/-- sub is exact fraction subtraction. -/
def sub (a b : Q) : Q := ⟨a.num * b.den - b.num * a.den, a.den * b.den⟩

instance : Sub Q := ⟨sub⟩

/-- mul is exact fraction multiplication. -/
def mul (a b : Q) : Q := ⟨a.num * b.num, a.den * b.den⟩

instance : Mul Q := ⟨mul⟩

instance : Neg Q := ⟨fun a => ⟨-a.num, a.den⟩⟩

/-- beq is numeric equality by cross multiplication. -/
def beq (a b : Q) : Bool := a.num * b.den == b.num * a.den

instance : BEq Q := ⟨beq⟩

/-- ble is numeric `≤` by cross multiplication (denominators are positive
by construction). -/
def ble (a b : Q) : Bool := decide (a.num * b.den ≤ b.num * a.den)

/-- blt is numeric `<`. -/
def blt (a b : Q) : Bool := decide (a.num * b.den < b.num * a.den)

/-- divQ is exact fraction division by a nonzero value (every call site
guards the zero divisor); the sign is kept on the numerator. -/
def divQ (a b : Q) : Q :=
  if b.num < 0 then ⟨-(a.num * b.den), a.den * (-b.num)⟩
  else ⟨a.num * b.den, a.den * b.num⟩

/-- qabs is the absolute value. -/
def qabs (a : Q) : Q := ⟨Int.ofNat a.num.natAbs, a.den⟩

/-- floorI is the floor, as an integer. -/
def floorI (a : Q) : Int := a.num.fdiv a.den

/-- half is `1/2`. -/
def half : Q := ⟨1, 2⟩

/-- pow10 is `10^z` for an integer exponent. -/
def pow10 : Int → Q
  | .ofNat n => ⟨(10 : Int) ^ n, 1⟩
  | .negSucc n => ⟨1, (10 : Int) ^ (n + 1)⟩

end Q

/-- JVal models a JavaScript/JSON value as stored in the execution context.
`nan` is the JS `NaN` number; `undefined` is represented externally as
`Option JVal := none`. Numbers are exact fractions (JS doubles; exact for
the small integers any claim exercises). -/
inductive JVal where
  | num (q : Q)
  | str (s : String)
  | bool (b : Bool)
  | null
  | nan
  | arr (xs : List JVal)
  | obj (fields : List (String × JVal))

namespace JVal

mutual

/-- jvalEq models lodash `_.isEqual` deep equality on values
(SameValueZero: `NaN` equals `NaN`). -/
def jvalEq : JVal → JVal → Bool
  | .num a, .num b => a == b
  | .str a, .str b => a == b
  | .bool a, .bool b => a == b
  | .null, .null => true
  | .nan, .nan => true
  | .arr xs, .arr ys => jvalEqList xs ys
  | .obj xs, .obj ys => jvalEqObj xs ys
  | _, _ => false

/-- jvalEqList is `_.isEqual` on arrays, elementwise. -/
def jvalEqList : List JVal → List JVal → Bool
  | [], [] => true
  | x :: xs, y :: ys => jvalEq x y && jvalEqList xs ys
  | _, _ => false

/-- jvalEqObj is `_.isEqual` on plain objects; the engine only builds
objects whose field order is deterministic, so ordered comparison agrees
with lodash's key-set comparison on every value the claims touch. -/
def jvalEqObj : List (String × JVal) → List (String × JVal) → Bool
  | [], [] => true
  | (k, x) :: xs, (l, y) :: ys => k == l && jvalEq x y && jvalEqObj xs ys
  | _, _ => false

end

/-- jvalEqOpt is `_.isEqual` where either side may be `undefined`. -/
def jvalEqOpt : Option JVal → Option JVal → Bool
  | none, none => true
  | some x, some y => jvalEq x y
  | _, _ => false

/-- jsStrictEq models the JS strict-equality operator `===` on context
values: primitives by value (`NaN === NaN` is false), objects and arrays
by reference, which is always false between the distinct objects compared
by the engine. -/
def jsStrictEq : JVal → JVal → Bool
  | .num a, .num b => a == b
  | .str a, .str b => a == b
  | .bool a, .bool b => a == b
  | .null, .null => true
  | _, _ => false

/-- truthy models JS boolean coercion `Boolean(value)`; `undefined` (the
`none` case) is falsy. -/
def truthy : Option JVal → Bool
  | none => false
  | some (.num q) => q != 0
  | some (.str s) => s ≠ ""
  | some (.bool b) => b
  | some .null => false
  | some .nan => false
  | some (.arr _) => true
  | some (.obj _) => true

/-- lookupField reads a field of a JS object (objects have unique keys;
first match). -/
def lookupField (fields : List (String × JVal)) (key : String) : Option JVal :=
  match fields with
  | [] => none
  | (k, v) :: rest => if k = key then some v else lookupField rest key

/-- setFields replaces an existing key in place or appends a new one,
preserving JS object insertion order for string keys. -/
def setFields (key : String) (v : JVal) : List (String × JVal) → List (String × JVal)
  | [] => [(key, v)]
  | (k, w) :: rest => if k = key then (k, v) :: rest else (k, w) :: setFields key v rest

/-- setField models the JS assignment `target[key] = v` on an object:
replaces the existing key in place or appends a new one (insertion order
is preserved, matching JS object key order for string keys). On a
non-object it is the identity, matching the claims' usage where the
target is always an object. -/
def setField (target : JVal) (key : String) (v : JVal) : JVal :=
  match target with
  | .obj fields => .obj (setFields key v fields)
  | other => other

end JVal

namespace JVal

/-- obraceC is the `{` character (written via its code point to keep it out
of string literals). -/
def obraceC : Char := Char.ofNat 123

/-- cbraceC is the `}` character. -/
def cbraceC : Char := Char.ofNat 125

/-- digitsVal reads a digit run as a natural number. -/
def digitsVal (cs : List Char) : Nat :=
  cs.foldl (fun a c => a * 10 + (c.toNat - 48)) 0

/-- splitChars splits a character list at every occurrence of `sep`
(`"a.b".split('.')` semantics: empty segments are kept). -/
def splitChars (sep : Char) : List Char → List (List Char)
  | [] => [[]]
  | c :: rest =>
    match splitChars sep rest with
    | [] => [[]]
    | g :: gs => if c = sep then [] :: g :: gs else (c :: g) :: gs

/-- parseIndex reads a (digit-run) array-index key; anything else is not
an index. -/
def parseIndex (s : String) : Option Nat :=
  let cs := s.toList
  if cs ≠ [] && cs.all Char.isDigit then some (digitsVal cs) else none

/-- pathSegs models lodash's `stringToPath` for the dotted paths the engine
uses (`"foo"`, `"rule.bar"`, `"a.b.c"`). -/
def pathSegs (p : String) : List String := (splitChars '.' p.toList).map String.mk

/-- getSeg reads one path segment from a value: a field of an object, or an
index of an array; anything else yields `undefined`. -/
def getSeg (v : JVal) (seg : String) : Option JVal :=
  match v with
  | .obj fields => lookupField fields seg
  | .arr xs =>
    match parseIndex seg with
    | some i => xs.get? i
    | none => none
  | _ => none

/-- getPath models `_.get(context, path)` (and `_.result`, which only
differs on function-valued properties that cannot occur in `JVal`):
walks the dotted path, yielding `undefined` (`none`) when any step is
missing. -/
def getPath (ctx : JVal) (path : String) : Option JVal :=
  (pathSegs path).foldl (fun acc seg => acc.bind (fun v => getSeg v seg)) (some ctx)

/-- emptyForSeg mirrors lodash `_.set` creating an array when the next
segment is an integer index and an object otherwise. -/
def emptyForSeg (seg : String) : JVal :=
  match parseIndex seg with
  | some _ => .arr []
  | none => .obj []

/-- setArrayIdx writes index `i` of a JS array, padding holes with `null`
(JS holes read back as `undefined`; no claim reads a padded hole). -/
def setArrayIdx (xs : List JVal) (i : Nat) (v : JVal) : List JVal :=
  match xs, i with
  | [], 0 => [v]
  | [], Nat.succ n => .null :: setArrayIdx [] n v
  | _ :: rest, 0 => v :: rest
  | x :: rest, Nat.succ n => x :: setArrayIdx rest n v

/-- setSeg writes one path segment into a value, mirroring `_.set`'s
per-step assignment; on a non-container it is the identity (lodash would
ignore the write on primitives). -/
def setSeg (v : JVal) (seg : String) (w : JVal) : JVal :=
  match v with
  | .obj fields => .obj (setFields seg w fields)
  | .arr xs =>
    match parseIndex seg with
    | some i => .arr (setArrayIdx xs i w)
    | none => .arr xs
  | other => other

/-- setPathAux walks the parsed path for `_.set`, creating intermediate
containers for missing or primitive steps exactly as lodash does. -/
def setPathAux (v : JVal) (segs : List String) (w : JVal) : JVal :=
  match segs with
  | [] => v
  | [seg] => setSeg v seg w
  | seg :: rest =>
    let child :=
      match getSeg v seg with
      | some (.obj fields) => JVal.obj fields
      | some (.arr xs) => JVal.arr xs
      | _ => emptyForSeg (rest.headD "")
    setSeg v seg (setPathAux child rest w)

/-- setPath models `_.set(context, path, value)`. -/
def setPath (ctx : JVal) (path : String) (w : JVal) : JVal :=
  setPathAux ctx (pathSegs path) w

/-- parseDecimal parses `digits[.digits][(e|E)[+|-]digits]` into an exact
fraction, consuming from the front; returns the value and the rest. -/
def parseDecimal (cs : List Char) : Option (Q × List Char) :=
  let intDigits := cs.takeWhile Char.isDigit
  let rest1 := cs.dropWhile Char.isDigit
  let (fracDigits, rest2) :=
    match rest1 with
    | '.' :: r =>
      (r.takeWhile Char.isDigit, r.dropWhile Char.isDigit)
    | _ => ([], rest1)
  if intDigits.isEmpty && fracDigits.isEmpty then none
  else
    let scale : Int := (10 : Int) ^ fracDigits.length
    let base : Q :=
      ⟨(digitsVal intDigits : Int) * scale + (digitsVal fracDigits : Int), scale⟩
    match rest2 with
    | 'e' :: r => parseExp base r
    | 'E' :: r => parseExp base r
    | _ => some (base, rest2)
where
  parseExp (base : Q) (r : List Char) : Option (Q × List Char) :=
    let (esign, r') :=
      match r with
      | '-' :: t => ((-1 : Int), t)
      | '+' :: t => ((1 : Int), t)
      | _ => ((1 : Int), r)
    let eDigits := r'.takeWhile Char.isDigit
    if eDigits.isEmpty then none
    else some (base * Q.pow10 (esign * (digitsVal eDigits : Int)), r'.dropWhile Char.isDigit)

/-- strToNumber models JS `Number(string)`: trimmed, empty means `0`,
otherwise an optionally signed decimal literal; anything else is `NaN`
(`none`). (Hex/binary/`Infinity` forms are not exercised by the engine's
claims and map to `NaN` here.) -/
def strToNumber (s : String) : Option Q :=
  let cs := (s.toList.dropWhile Char.isWhitespace).reverse.dropWhile Char.isWhitespace |>.reverse
  if cs = [] then some 0
  else
    let (sign, cs') :=
      match cs with
      | '-' :: r => ((-1 : Int), r)
      | '+' :: r => ((1 : Int), r)
      | _ => ((1 : Int), cs)
    match parseDecimal cs' with
    | some (q, []) => some ⟨sign * q.num, q.den⟩
    | _ => none

/-- toNumberV models JS `Number(value)` coercion on a defined value. -/
def toNumberV : JVal → Option Q
  | .num q => some q
  | .nan => none
  | .null => some 0
  | .bool b => some (if b then 1 else 0)
  | .str s => strToNumber s
  | .arr [] => some 0
  | .arr [x] => toNumberV x
  | .arr (_ :: _ :: _) => none
  | .obj _ => none

/-- toNumber models JS `Number(value)` coercion; `none` is `NaN`. -/
def toNumber : Option JVal → Option Q
  | none => none
  | some v => toNumberV v

/-- numToString prints a JS number. Integers print exactly as JS does; the
non-integer fallback prints `num/den`, an approximation of JS double
formatting that no claim observes. -/
def numToString (q : Q) : String :=
  if q.den == 1 then Int.repr q.num
  else Int.repr q.num ++ "/" ++ Int.repr q.den

mutual

/-- toJSStringV models JS `String(value)` on a defined value. -/
def toJSStringV : JVal → String
  | .num q => numToString q
  | .str s => s
  | .bool b => if b then "true" else "false"
  | .null => "null"
  | .nan => "NaN"
  | .arr xs => String.intercalate "," (toJSStringList xs)
  | .obj _ => "[object Object]"

/-- toJSStringList prints array elements as `Array.prototype.toString`
does (`null` and `undefined` print as the empty string). -/
def toJSStringList : List JVal → List String
  | [] => []
  | .null :: rest => "" :: toJSStringList rest
  | x :: rest => toJSStringV x :: toJSStringList rest

end

/-- toJSString models JS `String(value)` including `undefined`. -/
def toJSString : Option JVal → String
  | none => "undefined"
  | some v => toJSStringV v

end JVal

namespace JVal

/-- hexVal reads a hexadecimal digit. -/
def hexVal (c : Char) : Option Nat :=
  if c.isDigit then some (c.toNat - 48)
  else if 'a' ≤ c && c ≤ 'f' then some (c.toNat - 87)
  else if 'A' ≤ c && c ≤ 'F' then some (c.toNat - 67)
  else none

/-- jsonWs tests JSON whitespace. -/
def jsonWs (c : Char) : Bool :=
  c = ' ' || c = '\t' || c = '\n' || c = '\r'

/-- skipWs drops leading JSON whitespace. -/
def skipWs (cs : List Char) : List Char := cs.dropWhile jsonWs

/-- parseJsonStr reads the remainder of a JSON string literal (after the
opening quote), handling the standard escapes. -/
def parseJsonStr (fuel : Nat) (cs : List Char) (acc : List Char) :
    Option (String × List Char) :=
  match fuel, cs with
  | 0, _ => none
  | _, [] => none
  | Nat.succ f, c :: rest =>
    if c = '"' then some (String.mk acc.reverse, rest)
    else if c = '\\' then
      match rest with
      | [] => none
      | e :: rest' =>
        if e = 'n' then parseJsonStr f rest' ('\n' :: acc)
        else if e = 't' then parseJsonStr f rest' ('\t' :: acc)
        else if e = 'r' then parseJsonStr f rest' ('\r' :: acc)
        else if e = 'b' then parseJsonStr f rest' (Char.ofNat 8 :: acc)
        else if e = 'f' then parseJsonStr f rest' (Char.ofNat 12 :: acc)
        else if e = 'u' then
          match rest' with
          | a :: b :: c' :: d :: rest'' =>
            match hexVal a, hexVal b, hexVal c', hexVal d with
            | some x, some y, some z, some w =>
              parseJsonStr f rest'' (Char.ofNat (((x * 16 + y) * 16 + z) * 16 + w) :: acc)
            | _, _, _, _ => none
          | _ => none
        else if e = '"' || e = '\\' || e = '/' then parseJsonStr f rest' (e :: acc)
        else none
    else parseJsonStr f rest (c :: acc)

mutual

/-- parseJsonVal is a fueled recursive-descent model of `JSON.parse` (a JS
builtin external to the repository); it consumes one JSON value. -/
def parseJsonVal (fuel : Nat) (cs0 : List Char) : Option (JVal × List Char) :=
  match fuel with
  | 0 => none
  | Nat.succ f =>
    match skipWs cs0 with
    | [] => none
    | c :: rest =>
      if c = obraceC then parseJsonObj f (skipWs rest) []
      else if c = '[' then parseJsonArr f (skipWs rest) []
      else if c = '"' then
        match parseJsonStr (rest.length + 1) rest [] with
        | some (s, r) => some (.str s, r)
        | none => none
      else if c = 'n' then
        match rest with
        | 'u' :: 'l' :: 'l' :: r => some (.null, r)
        | _ => none
      else if c = 't' then
        match rest with
        | 'r' :: 'u' :: 'e' :: r => some (.bool true, r)
        | _ => none
      else if c = 'f' then
        match rest with
        | 'a' :: 'l' :: 's' :: 'e' :: r => some (.bool false, r)
        | _ => none
      else if c = '-' then
        match parseDecimal rest with
        | some (q, r) => some (.num (-q), r)
        | none => none
      else
        match parseDecimal (c :: rest) with
        | some (q, r) => some (.num q, r)
        | none => none

/-- parseJsonArr consumes array elements after `[`. -/
def parseJsonArr (fuel : Nat) (cs : List Char) (acc : List JVal) :
    Option (JVal × List Char) :=
  match fuel with
  | 0 => none
  | Nat.succ f =>
    match cs with
    | ']' :: rest => some (.arr acc.reverse, rest)
    | _ =>
      match parseJsonVal f cs with
      | none => none
      | some (v, r) =>
        match skipWs r with
        | ',' :: r' => parseJsonArr f (skipWs r') (v :: acc)
        | ']' :: r' => some (.arr (v :: acc).reverse, r')
        | _ => none

/-- parseJsonObj consumes object members after the opening brace. -/
def parseJsonObj (fuel : Nat) (cs : List Char) (acc : List (String × JVal)) :
    Option (JVal × List Char) :=
  match fuel with
  | 0 => none
  | Nat.succ f =>
    match cs with
    | c :: rest =>
      if c = cbraceC then some (.obj acc.reverse, rest)
      else if c = '"' then
        match parseJsonStr (rest.length + 1) rest [] with
        | none => none
        | some (k, r) =>
          match skipWs r with
          | ':' :: r' =>
            match parseJsonVal f (skipWs r') with
            | none => none
            | some (v, r'') =>
              match skipWs r'' with
              | ',' :: r3 =>
                match skipWs r3 with
                | '"' :: _ => parseJsonObj f (skipWs r3) ((k, v) :: acc)
                | _ => none
              | r3 =>
                if r3.headD ' ' = cbraceC then some (.obj ((k, v) :: acc).reverse, r3.tail)
                else none
          | _ => none
      else none
    | [] => none

end

/-- jsonParse models `JSON.parse` on a string: the whole input must be one
JSON value up to trailing whitespace. -/
def jsonParse (s : String) : Option JVal :=
  match parseJsonVal (2 * s.length + 4) s.toList with
  | some (v, rest) => if skipWs rest = [] then some v else none
  | none => none

/-- jsonParseJS models `JSON.parse(value)` applied to an arbitrary argument
value, which JS first coerces to a string. -/
def jsonParseJS (v : JVal) : Option JVal :=
  match v with
  | .str s => jsonParse s
  | other => jsonParse (toJSStringV other)

/-- escapeJsonChar escapes one character for `JSON.stringify` string
output. -/
def escapeJsonChar (c : Char) : List Char :=
  if c = '"' then ['\\', '"']
  else if c = '\\' then ['\\', '\\']
  else if c = '\n' then ['\\', 'n']
  else if c = '\t' then ['\\', 't']
  else if c = '\r' then ['\\', 'r']
  else [c]

/-- quoteJson renders a JSON string literal. -/
def quoteJson (s : String) : String :=
  String.mk ('"' :: (s.toList.map escapeJsonChar).flatten ++ ['"'])

mutual

/-- serializeJVal models `JSON.stringify` on the argument values the
DataLoader cache key serializes (`NaN` stringifies as `null`). -/
def serializeJVal : JVal → String
  | .num q => numToString q
  | .str s => quoteJson s
  | .bool b => if b then "true" else "false"
  | .null => "null"
  | .nan => "null"
  | .arr xs => "[" ++ String.intercalate "," (serializeList xs) ++ "]"
  | .obj fields =>
    String.singleton obraceC ++ String.intercalate "," (serializeObj fields) ++
      String.singleton cbraceC

/-- serializeList stringifies array elements. -/
def serializeList : List JVal → List String
  | [] => []
  | x :: xs => serializeJVal x :: serializeList xs

/-- serializeObj stringifies object members in key insertion order, as JS
does. -/
def serializeObj : List (String × JVal) → List String
  | [] => []
  | (k, v) :: rest => (quoteJson k ++ ":" ++ serializeJVal v) :: serializeObj rest

end

end JVal

/-- Cond is the expression-tree node model of a parsed condition document
(`src/conditions/condition-executor.ts`, `validateConditions` dispatch):
four logical kinds carrying their ordered child lists, and predicate
leaves carrying the argument map produced by `getArgs` (whose key order is
the schema's argument-definition order, hence identical for every
invocation of the same predicate). -/
inductive Cond where
  | and (cs : List Cond)
  | or (cs : List Cond)
  | xor (cs : List Cond)
  | not (cs : List Cond)
  | pred (name : String) (args : List (String × JVal))

/-- CondResolver is the TS condition resolver signature
`(args, context) => value | Promise<value>`: it may read and (in
principle) mutate the context and may throw; the returned value is
coerced to a boolean by the executor. -/
abbrev CondResolver := List (String × JVal) → JVal → Except Err (Option JVal × JVal)

/-- CondResolvers is the executor's `this.resolvers` name lookup. -/
abbrev CondResolvers := String → Option CondResolver

/-- cacheKey is the DataLoader `cacheKeyFn`:
`name + ":" + JSON.stringify(args)`. -/
def cacheKey (name : String) (args : List (String × JVal)) : String :=
  name ++ ":" ++ JVal.serializeJVal (.obj args)

/-- Loader models the per-`executeAll` DataLoader: the memo cache of
settled load promises keyed by `cacheKey`, plus (as instrumentation) the
ordered list of keys for which the underlying resolver was actually
invoked. -/
structure Loader where
  cache : List (String × Except Err Bool)
  calls : List String

/-- freshLoader is `new DataLoader(...)`: empty cache, no calls yet. -/
def freshLoader : Loader := ⟨[], []⟩

/-- EvalSt is the mutable state visible to condition evaluation: the
executor's DataLoader and the shared execution context. -/
structure EvalSt where
  loader : Loader
  ctx : JVal

/-- load models `this.dataLoader.load({name, args})` together with the
batch function of `executeAll`: on a cache miss the resolver for `name`
(or `_.noop`, whose `undefined` result coerces to `false`) runs exactly
once and its settled result is cached; a hit returns the cached result
without running anything. -/
def load (res : CondResolvers) (name : String) (args : List (String × JVal))
    (s : EvalSt) : Except Err Bool × EvalSt :=
  let key := cacheKey name args
  match s.loader.cache.lookup key with
  | some r => (r, s)
  | none =>
    let rc : Except Err Bool × JVal :=
      match res name with
      | none => (Except.ok false, s.ctx)
      | some f =>
        match f args s.ctx with
        | .ok (v, ctx') => (Except.ok (JVal.truthy v), ctx')
        | .error e => (Except.error e, s.ctx)
    (rc.1, ⟨⟨(key, rc.1) :: s.loader.cache, s.loader.calls ++ [key]⟩, rc.2⟩)

/-- isOkTrue tests a settled child result for boolean `true`. -/
def isOkTrue : Except Err Bool → Bool
  | .ok true => true
  | _ => false

/-- firstErr is the rejection `Promise.all` settles with: the first (in
array order, which is settlement order for these synchronous resolvers)
rejected child. -/
def firstErr : List (Except Err Bool) → Option Err
  | [] => none
  | .error e :: _ => some e
  | .ok _ :: rest => firstErr rest

/-- combineAND models `validateANDConditions`:
`results.every((t) => t)` after `Promise.all`. -/
def combineAND (rs : List (Except Err Bool)) : Except Err Bool :=
  match firstErr rs with
  | some e => .error e
  | none => .ok (rs.all isOkTrue)

/-- combineOR models `validateORConditions`: `results.includes(true)`. -/
def combineOR (rs : List (Except Err Bool)) : Except Err Bool :=
  match firstErr rs with
  | some e => .error e
  | none => .ok (rs.any isOkTrue)

/-- combineXOR models `validateXORConditions`: the count of `true` results
is exactly one. -/
def combineXOR (rs : List (Except Err Bool)) : Except Err Bool :=
  match firstErr rs with
  | some e => .error e
  | none => .ok (rs.countP (fun r => isOkTrue r) == 1)

/-- combineNOT models `validateNOTConditions`: the negation of the
implicit AND of the children. -/
def combineNOT (rs : List (Except Err Bool)) : Except Err Bool :=
  match combineAND rs with
  | .ok b => .ok (!b)
  | .error e => .error e

mutual

/-- validateConditions models the recursive evaluator of
`condition-executor.ts`: dispatch on the node kind, evaluate every child
(`Promise.all` starts all children in array order and never
short-circuits), combine. -/
def validateConditions (res : CondResolvers) : Cond → EvalSt → Except Err Bool × EvalSt
  | .and cs, s =>
    let p := validateList res cs s
    (combineAND p.1, p.2)
  | .or cs, s =>
    let p := validateList res cs s
    (combineOR p.1, p.2)
  | .xor cs, s =>
    let p := validateList res cs s
    (combineXOR p.1, p.2)
  | .not cs, s =>
    let p := validateList res cs s
    (combineNOT p.1, p.2)
  | .pred name args, s => load res name args s

/-- validateList evaluates a selection set in order, threading the loader
and context; every child is evaluated even when an earlier sibling
rejected, mirroring that `Promise.all` has already started all of them. -/
def validateList (res : CondResolvers) : List Cond → EvalSt → List (Except Err Bool) × EvalSt
  | [], s => ([], s)
  | c :: cs, s =>
    let p := validateConditions res c s
    let q := validateList res cs p.2
    (p.1 :: q.1, q.2)

end

/-- executeDoc models `execute` on one parsed condition document: the root
`OperationDefinition` is evaluated exactly like an AND node over its
selection set. -/
def executeDoc (res : CondResolvers) (doc : List Cond) (s : EvalSt) :
    Except Err Bool × EvalSt :=
  let p := validateList res doc s
  (combineAND p.1, p.2)

/-- docsGo evaluates the batch's documents in order (all trees are started
by `Promise.all(rules.map(...))`; each settles independently). -/
def docsGo (res : CondResolvers) : List (List Cond) → EvalSt → List (Except Err Bool) × EvalSt
  | [], s => ([], s)
  | d :: ds, s =>
    let p := executeDoc res d s
    let q := docsGo res ds p.2
    (p.1 :: q.1, q.2)

/-- condExecuteAll models `ConditionExecutor.executeAll`: it first
replaces `this.dataLoader` with a freshly constructed DataLoader (the
previous loader, if any, is discarded), then evaluates every document of
the batch against the shared cache. -/
def condExecuteAll (res : CondResolvers) (docs : List (List Cond))
    (priorLoader : Option Loader) (ctx : JVal) : List (Except Err Bool) × EvalSt :=
  let _ := priorLoader
  docsGo res docs ⟨freshLoader, ctx⟩

mutual

/-- leafKeys lists the cache keys of a tree's predicate leaves in
evaluation order. -/
def leafKeys : Cond → List String
  | .and cs => leafKeysList cs
  | .or cs => leafKeysList cs
  | .xor cs => leafKeysList cs
  | .not cs => leafKeysList cs
  | .pred name args => [cacheKey name args]

/-- leafKeysList concatenates the leaf keys of a selection set. -/
def leafKeysList : List Cond → List String
  | [] => []
  | c :: cs => leafKeys c ++ leafKeysList cs

end

/-- batchLeafKeys lists every predicate cache key requested by a batch. -/
def batchLeafKeys (docs : List (List Cond)) : List String :=
  (docs.map leafKeysList).flatten

/-- getPathOpt is `_.get(context, path)` where the path itself may be
`undefined` (destructured from a missing argument), in which case lodash
yields `undefined`. -/
def getPathOpt (ctx : JVal) (path : Option String) : Option JVal :=
  match path with
  | some p => JVal.getPath ctx p
  | none => none

/-- argLookup reads one named argument of the `getArgs` argument map;
absent arguments are `undefined`. -/
def argLookup (args : List (String × JVal)) (key : String) : Option JVal :=
  JVal.lookupField args key

/-- argStr reads a string-typed argument. -/
def argStr (args : List (String × JVal)) (key : String) : Option String :=
  match argLookup args key with
  | some (.str s) => some s
  | _ => none

/-- argNum reads a numeric argument (GraphQL `Float`/`Int` typed). -/
def argNum (args : List (String × JVal)) (key : String) : Option Q :=
  match argLookup args key with
  | some (.num q) => some q
  | _ => none

/-- jsRound models JS `Math.round`: half-up towards positive infinity. -/
def jsRound (q : Q) : Int := (q + Q.half).floorI

/-- strictEqOpt compares an array element with a possibly-`undefined`
expected value using JS `===`. -/
def strictEqOpt (e : JVal) (x : Option JVal) : Bool :=
  match x with
  | some v => JVal.jsStrictEq e v
  | none => false

/-- parseJsonArg models `JSON.parse(expectedRaw)` applied to a raw
argument value (possibly `undefined`, which JS coerces to the unparsable
string `"undefined"`). -/
def parseJsonArg (v : Option JVal) : Option JVal :=
  match v with
  | some w => JVal.jsonParseJS w
  | none => none

/-- invalidJson builds the `TypeError` message thrown by the resolvers
that parse a JSON argument. -/
def invalidJson (raw : Option JVal) : Err :=
  "Invalid JSON. Did you remember to escape double quotes? Received: " ++ JVal.toJSString raw

mutual

/-- isMatchJ models lodash `_.isMatch(target, source)`: a partial deep
comparison in which every field of the `source` object must be matched by
the target (a source that is not an object has no match data and matches
anything). Nested arrays are compared by deep equality, an approximation
of lodash's partial array matching that no claim observes. -/
def isMatchJ (target : Option JVal) (source : JVal) : Bool :=
  match source with
  | .obj fs => matchFields target fs
  | _ => true

/-- matchFields checks each source field against the target. -/
def matchFields (target : Option JVal) : List (String × JVal) → Bool
  | [] => true
  | (k, v) :: rest =>
    (match target with
     | some tv => partialEq (JVal.getSeg tv k) v
     | none => false) && matchFields target rest

/-- partialEq compares one source field value: object sources recurse
partially, anything else is `_.isEqual`. -/
def partialEq (tval : Option JVal) (sval : JVal) : Bool :=
  match sval with
  | .obj fs => matchFields tval fs
  | other => JVal.jvalEqOpt tval (some other)

end

/-- reCharMatch matches one regex atom against one character. -/
def reCharMatch (p c : Char) : Bool := p = '.' || p = c

/-- reMatch is a fueled backtracking matcher for the literal/`.`/`*`/`$`
regex fragment; it models the JS `RegExp` builtin (external to the
repository), whose exact language is irrelevant to every claim — only the
fact that regex matching is a pure function of its string inputs
matters. -/
def reMatch (fuel : Nat) (pat text : List Char) : Bool :=
  match fuel, pat with
  | 0, _ => false
  | _, [] => true
  | _, ['$'] => text.isEmpty
  | Nat.succ f, p :: '*' :: ps =>
    reMatch f ps text ||
      (match text with
       | c :: ts => reCharMatch p c && reMatch f (p :: '*' :: ps) ts
       | [] => false)
  | Nat.succ f, p :: ps =>
    match text with
    | c :: ts => reCharMatch p c && reMatch f ps ts
    | [] => false

/-- regexTest models `RegExp(value, flags).test(actual)`: an unanchored
search unless the pattern starts with `^`; only the `i` flag is
interpreted. -/
def regexTest (pat flags text : String) : Bool :=
  let lower := fun (cs : List Char) => cs.map Char.toLower
  let insens := flags.toList.contains 'i'
  let norm := fun (cs : List Char) => if insens then lower cs else cs
  let fuel := (pat.length + 1) * (text.length + 2) + 1
  match pat.toList with
  | '^' :: ps => reMatch fuel (norm ps) (norm text.toList)
  | ps =>
    (List.range (text.length + 1)).any fun i =>
      reMatch fuel (norm ps) (norm (text.toList.drop i))

/-- readerResolver lifts a resolver body that only reads the context into
the general resolver signature. Every default condition resolver of
`src/conditions/conditions.ts` has this shape: its body consists of
`_.get` reads of the context and pure computation on local values, with
no assignment into the context. -/
def readerResolver (f : List (String × JVal) → JVal → Except Err (Option JVal)) : CondResolver :=
  fun args ctx => (f args ctx).map (fun v => (v, ctx))

namespace CondDefaults

/-- always resolves to `true`. -/
def always : CondResolver := readerResolver fun _ _ => .ok (some (.bool true))

/-- never resolves to `false`. -/
def never : CondResolver := readerResolver fun _ _ => .ok (some (.bool false))

/-- closeTo checks whether the value at `path` is within the given decimal
precision of `value` (`Math.round((|expected - actual|) * 10^(p+1)) /
10^(p+1) <= 10^(-p) / 2`); every `NaN` comparison is false. -/
def closeTo : CondResolver := readerResolver fun args ctx =>
  let actual := JVal.toNumber (getPathOpt ctx (argStr args "path"))
  let expected := argNum args "value"
  let precision := argNum args "precision"
  .ok (some (.bool (
    match actual, expected, precision with
    | some a, some e, some p =>
      let pz : Int := p.floorI
      let pow : Q := Q.pow10 (pz + 1)
      let delta : Q := (e - a).qabs
      let maxDelta : Q := (Q.pow10 (-pz)).divQ 2
      ((Q.ofInt (jsRound (delta * pow))).divQ pow).ble maxDelta
    | _, _, _ => false)))

/-- equalsNumber compares `Number(value-at-path)` with the integer
argument by strict deep equality (`NaN` never equal). -/
def equalsNumber : CondResolver := readerResolver fun args ctx =>
  let actual := JVal.toNumber (getPathOpt ctx (argStr args "path"))
  .ok (some (.bool (
    match actual, argNum args "value" with
    | some a, some e => a == e
    | _, _ => false)))

/-- equalsObject deep-compares the value at `path` with the parsed JSON
argument, throwing the `TypeError` on unparsable JSON. -/
def equalsObject : CondResolver := readerResolver fun args ctx =>
  let raw := argLookup args "value"
  match parseJsonArg raw with
  | some expected =>
    .ok (some (.bool (JVal.jvalEqOpt (getPathOpt ctx (argStr args "path")) (some expected))))
  | none => .error (invalidJson raw)

/-- equalsString compares `String(value-at-path)` with the string
argument. -/
def equalsString : CondResolver := readerResolver fun args ctx =>
  .ok (some (.bool (
    match argStr args "value" with
    | some e => JVal.toJSString (getPathOpt ctx (argStr args "path")) = e
    | none => false)))

/-- greaterThan compares numerically; `NaN` comparisons are false. -/
def greaterThan : CondResolver := readerResolver fun args ctx =>
  .ok (some (.bool (
    match JVal.toNumber (getPathOpt ctx (argStr args "path")), argNum args "value" with
    | some a, some e => Q.blt e a
    | _, _ => false)))

/-- greaterThanOrEqual compares numerically. -/
def greaterThanOrEqual : CondResolver := readerResolver fun args ctx =>
  .ok (some (.bool (
    match JVal.toNumber (getPathOpt ctx (argStr args "path")), argNum args "value" with
    | some a, some e => Q.ble e a
    | _, _ => false)))

/-- lessThan compares numerically. -/
def lessThan : CondResolver := readerResolver fun args ctx =>
  .ok (some (.bool (
    match JVal.toNumber (getPathOpt ctx (argStr args "path")), argNum args "value" with
    | some a, some e => Q.blt a e
    | _, _ => false)))

/-- lessThanOrEqual compares numerically. -/
def lessThanOrEqual : CondResolver := readerResolver fun args ctx =>
  .ok (some (.bool (
    match JVal.toNumber (getPathOpt ctx (argStr args "path")), argNum args "value" with
    | some a, some e => Q.ble a e
    | _, _ => false)))

/-- includesFloat returns `actual.find((e) => e === value)` — the found
element itself (or `undefined`), which the executor later coerces — after
an `isArray` guard that yields `false`. -/
def includesFloat : CondResolver := readerResolver fun args ctx =>
  match getPathOpt ctx (argStr args "path") with
  | some (.arr xs) => .ok (xs.find? (fun e => strictEqOpt e (argLookup args "value")))
  | _ => .ok (some (.bool false))

/-- includesString is `includesFloat` for string members. -/
def includesString : CondResolver := readerResolver fun args ctx =>
  match getPathOpt ctx (argStr args "path") with
  | some (.arr xs) => .ok (xs.find? (fun e => strictEqOpt e (argLookup args "value")))
  | _ => .ok (some (.bool false))

/-- includesObject checks the array at `path` for a member matching the
parsed JSON argument via `!!_.find(actual, expected)`; the `isArray`
guard runs before the JSON parse. Non-object iteratees use lodash's
property shorthand. -/
def includesObject : CondResolver := readerResolver fun args ctx =>
  match getPathOpt ctx (argStr args "path") with
  | some (.arr xs) =>
    let raw := argLookup args "value"
    match parseJsonArg raw with
    | some expected =>
      let found :=
        match expected with
        | .obj _ => xs.find? (fun e => isMatchJ (some e) expected)
        | other => xs.find? (fun e => JVal.truthy (JVal.getSeg e (JVal.toJSStringV other)))
      .ok (some (.bool (JVal.truthy found)))
    | none => .error (invalidJson raw)
  | _ => .ok (some (.bool false))

/-- isFalsy is `!!!actual`. -/
def isFalsy : CondResolver := readerResolver fun args ctx =>
  .ok (some (.bool (!JVal.truthy (getPathOpt ctx (argStr args "path")))))

/-- isNull is `actual === null`. -/
def isNull : CondResolver := readerResolver fun args ctx =>
  .ok (some (.bool (
    match getPathOpt ctx (argStr args "path") with
    | some .null => true
    | _ => false)))

/-- isTruthy is `!!actual`. -/
def isTruthy : CondResolver := readerResolver fun args ctx =>
  .ok (some (.bool (JVal.truthy (getPathOpt ctx (argStr args "path")))))

/-- isUndefined is `actual === undefined`. -/
def isUndefined : CondResolver := readerResolver fun args ctx =>
  .ok (some (.bool (getPathOpt ctx (argStr args "path")).isNone))

/-- matchesObject is `_.isMatch(actual, JSON.parse(value))`, throwing the
`TypeError` on unparsable JSON. -/
def matchesObject : CondResolver := readerResolver fun args ctx =>
  let raw := argLookup args "value"
  match parseJsonArg raw with
  | some expected =>
    .ok (some (.bool (isMatchJ (getPathOpt ctx (argStr args "path")) expected)))
  | none => .error (invalidJson raw)

/-- matchesRegex is `RegExp(value, flags).test(String(actual))`. -/
def matchesRegex : CondResolver := readerResolver fun args ctx =>
  .ok (some (.bool (
    match argStr args "value" with
    | some pat =>
      regexTest pat ((argStr args "flags").getD "")
        (JVal.toJSString (getPathOpt ctx (argStr args "path")))
    | none => false)))

end CondDefaults

/-- defaultConditionList is the object literal `defaultConditionResolvers`
of `src/conditions/conditions.ts` as an association list in source
order. -/
def defaultConditionList : List (String × CondResolver) :=
  [("always", CondDefaults.always),
   ("closeTo", CondDefaults.closeTo),
   ("equalsNumber", CondDefaults.equalsNumber),
   ("equalsObject", CondDefaults.equalsObject),
   ("equalsString", CondDefaults.equalsString),
   ("greaterThan", CondDefaults.greaterThan),
   ("greaterThanOrEqual", CondDefaults.greaterThanOrEqual),
   ("includesFloat", CondDefaults.includesFloat),
   ("includesObject", CondDefaults.includesObject),
   ("includesString", CondDefaults.includesString),
   ("isFalsy", CondDefaults.isFalsy),
   ("isNull", CondDefaults.isNull),
   ("isTruthy", CondDefaults.isTruthy),
   ("isUndefined", CondDefaults.isUndefined),
   ("lessThan", CondDefaults.lessThan),
   ("lessThanOrEqual", CondDefaults.lessThanOrEqual),
   ("matchesObject", CondDefaults.matchesObject),
   ("matchesRegex", CondDefaults.matchesRegex),
   ("never", CondDefaults.never)]

/-- defaultConditionResolvers models the resolver map lookup
`this.resolvers[name]` over the default condition resolvers. -/
def defaultConditionResolvers : CondResolvers := fun name =>
  defaultConditionList.lookup name

/-- EffectField is one effect-operation node of a parsed effects document:
the operation name plus the argument map produced by `getArgs`. -/
structure EffectField where
  name : String
  args : List (String × JVal)

/-- EffResolver is the TS effect resolver signature
`(args, context) => void | Promise<void>`: it mutates the context or
throws (every default resolver validates before its single `_.set`, so an
error implies no mutation, which the `Except` shape encodes). -/
abbrev EffResolver := List (String × JVal) → JVal → Except Err JVal

/-- EffResolvers is the executor's `this.resolvers` name lookup. -/
abbrev EffResolvers := String → Option EffResolver

/-- Rule models one rule object: a parsed condition document, a parsed
effects document, and the remaining metadata fields. -/
structure Rule where
  conditions : List Cond
  effects : List EffectField
  meta : List (String × JVal)

/-- setPathOpt is `_.set` where the path may be `undefined` (treated as a
no-op; no claim writes through a missing path argument). -/
def setPathOpt (ctx : JVal) (path : Option String) (v : JVal) : JVal :=
  match path with
  | some p => JVal.setPath ctx p v
  | none => ctx

/-- inspectVal models the `util-inspect` rendering used inside error
messages (approximated by `String(value)`; only the message text
differs). -/
def inspectVal (v : Option JVal) : String := JVal.toJSString v

/-- assertSingleValue models `assertSingleValue` of
`src/effects/effects.ts`: providing both the literal and the
path-reference argument, or neither, throws a configuration error. -/
def assertSingleValue (value valuePath : Option JVal) : Except Err Unit :=
  if value.isSome && valuePath.isSome then
    .error "Cannot provide both value and valuePath!"
  else if value.isNone && valuePath.isNone then
    .error "Must provide either value or valuePath"
  else .ok ()

/-- getValue models `getValue` of `src/effects/effects.ts`: after
`assertSingleValue`, the literal argument if present, otherwise
`_.result(context, valuePath)`. -/
def getValue (value valuePath : Option JVal) (ctx : JVal) : Except Err (Option JVal) := do
  assertSingleValue value valuePath
  match value with
  | some v => pure (some v)
  | none =>
    match valuePath with
    | some (.str p) => pure (JVal.getPath ctx p)
    | _ => pure none

/-- getParsedValue models `getParsedValue` of `src/effects/effects.ts`:
after `assertSingleValue`, read through `valuePath` when it is provided,
otherwise `JSON.parse` the literal, throwing the `TypeError` on
unparsable JSON. -/
def getParsedValue (value valuePath : Option JVal) (ctx : JVal) : Except Err (Option JVal) := do
  assertSingleValue value valuePath
  match valuePath with
  | some (.str p) => pure (JVal.getPath ctx p)
  | some _ => pure none
  | none =>
    match value with
    | some v =>
      match JVal.jsonParseJS v with
      | some parsed => pure (some parsed)
      | none => throw (invalidJson (some v))
    | none => throw (invalidJson none)

/-- isNumberJS models lodash `_.isNumber` (true for `NaN` as well). -/
def isNumberJS : Option JVal → Bool
  | some (.num _) => true
  | some .nan => true
  | _ => false

/-- jsAdd models the JS `+` on a number-typed left operand: numeric
addition, string concatenation when the right operand is a string, `NaN`
otherwise. -/
def jsAdd (a : JVal) (b : Option JVal) : JVal :=
  match b with
  | some (.str s) => .str (JVal.toJSStringV a ++ s)
  | _ =>
    match JVal.toNumber (some a), JVal.toNumber b with
    | some x, some y => .num (x + y)
    | _, _ => .nan

/-- jsNumOp models a numeric JS binary operator (`-`, `*`): both operands
coerce to numbers, `NaN` propagates. -/
def jsNumOp (f : Q → Q → Q) (a : JVal) (b : Option JVal) : JVal :=
  match JVal.toNumber (some a), JVal.toNumber b with
  | some x, some y => .num (f x y)
  | _, _ => .nan

/-- jsDiv models JS `/` (division by a coerced zero, which would be an
infinity, maps to `NaN`; the resolver's own `val === 0` guard rejects the
only case any claim exercises). -/
def jsDiv (a : JVal) (b : Option JVal) : JVal :=
  match JVal.toNumber (some a), JVal.toNumber b with
  | some x, some y => if y == 0 then .nan else .num (x.divQ y)
  | _, _ => .nan

namespace EffDefaults

/-- add models the `add` effect resolver: throws when the value at `path`
is not a number, otherwise writes `initial + val`. -/
def add : EffResolver := fun args ctx => do
  let path := argStr args "path"
  let initial := getPathOpt ctx path
  let val ← getValue (argLookup args "value") (argLookup args "valuePath") ctx
  if isNumberJS initial then
    pure (setPathOpt ctx path (jsAdd (initial.getD .nan) val))
  else
    throw ("Can't add because " ++ inspectVal initial ++ " at " ++
      (path.getD "undefined") ++ " is not a number")

/-- subtract models the `subtract` effect resolver. -/
def subtract : EffResolver := fun args ctx => do
  let path := argStr args "path"
  let initial := getPathOpt ctx path
  let val ← getValue (argLookup args "value") (argLookup args "valuePath") ctx
  if isNumberJS initial then
    pure (setPathOpt ctx path (jsNumOp (fun x y => x - y) (initial.getD .nan) val))
  else
    throw ("Can't subtract because " ++ inspectVal initial ++ " at " ++
      (path.getD "undefined") ++ " is not a number")

/-- multiply models the `multiply` effect resolver (whose source error
message says "ceiling", faithfully preserved). -/
def multiply : EffResolver := fun args ctx => do
  let path := argStr args "path"
  let initial := getPathOpt ctx path
  let val ← getValue (argLookup args "value") (argLookup args "valuePath") ctx
  if isNumberJS initial then
    pure (setPathOpt ctx path (jsNumOp (fun x y => x * y) (initial.getD .nan) val))
  else
    throw ("Can't compute ceiling because " ++ inspectVal initial ++ " at " ++
      (path.getD "undefined") ++ " is not a number")

/-- divide models the `divide` effect resolver, including its
`RangeError` on a zero divisor. -/
def divide : EffResolver := fun args ctx => do
  let path := argStr args "path"
  let initial := getPathOpt ctx path
  let val ← getValue (argLookup args "value") (argLookup args "valuePath") ctx
  if !isNumberJS initial then
    throw ("Can't divide because " ++ inspectVal initial ++ " at " ++
      (path.getD "undefined") ++ " is not a number")
  else if strictEqOpt (.num 0) val then
    throw "Can't divide because provided value is 0"
  else
    pure (setPathOpt ctx path (jsDiv (initial.getD .nan) val))

/-- set models the `set` effect resolver: write the parsed value at
`path` (writing a JS `undefined` stores a hole, modeled as `null`; no
claim reads one back). -/
def set : EffResolver := fun args ctx => do
  let val ← getParsedValue (argLookup args "value") (argLookup args "valuePath") ctx
  pure (setPathOpt ctx (argStr args "path") (val.getD .null))

/-- defaultOp models the `default` effect resolver: write the parsed
value only when the existing value is `undefined`. -/
def defaultOp : EffResolver := fun args ctx => do
  let val ← getParsedValue (argLookup args "value") (argLookup args "valuePath") ctx
  let path := argStr args "path"
  if (getPathOpt ctx path).isSome then
    pure ctx
  else
    pure (setPathOpt ctx path (val.getD .null))

end EffDefaults

/-- defaultEffectResolvers models the resolver map of
`src/effects/effects.ts`, restricted to the operations some claim
exercises; the omitted resolvers (`ceiling`, `clamp`, `concat`, `filter`,
`floor`, `max`, `merge`, `min`, `pull`, `round`, `unset`) play no role in
any claim and are absent from this model rather than stubbed. -/
def defaultEffectResolvers : EffResolvers := fun name =>
  ([("add", EffDefaults.add),
    ("subtract", EffDefaults.subtract),
    ("multiply", EffDefaults.multiply),
    ("divide", EffDefaults.divide),
    ("set", EffDefaults.set),
    ("default", EffDefaults.defaultOp)] : List (String × EffResolver)).lookup name

/-- applyOp models one branch of `executeEffect`: resolver lookup (a
missing resolver throws the unknown-operation error), argument
resolution, resolver invocation. -/
def applyOp (res : EffResolvers) (op : EffectField) (ctx : JVal) : Except Err JVal :=
  match res op.name with
  | none => .error ("Missing resolver for effect \"" ++ op.name ++ "\"")
  | some f => f op.args ctx

/-- execOps models `executeEffect`'s
`Promise.all(selections.map(async ...))`: every operation of the rule is
started in array order and runs to completion even when an earlier
sibling rejected (its mutation stays applied); the joint promise rejects
with the first rejection. -/
def execOps (res : EffResolvers) : List EffectField → JVal → JVal × Option Err
  | [], ctx => (ctx, none)
  | op :: ops, ctx =>
    match applyOp res op ctx with
    | .ok ctx' => execOps res ops ctx'
    | .error e =>
      let p := execOps res ops ctx
      (p.1, some e)

/-- effExecuteAll models `EffectExecutor.executeAll`
(`src/effects/effect-executor.ts`): for each rule in order, first assign
`context.rule = _.omit(rule, ['effects', 'conditions'])`, then execute
the rule's effects and await them; a rejection aborts the loop, and
nothing is ever rolled back or cleaned up. -/
def effExecuteAll (res : EffResolvers) : List Rule → JVal → JVal × Option Err
  | [], ctx => (ctx, none)
  | r :: rest, ctx =>
    let ctx1 := JVal.setField ctx "rule" (.obj r.meta)
    let p := execOps res r.effects ctx1
    match p.2 with
    | some e => (p.1, some e)
    | none => effExecuteAll res rest p.1

/-- RuleItem is one element of the `RuleArray` accepted by
`processRules`: a bare rule or an arbitrarily nested rule-set array. -/
inductive RuleItem where
  | rule (r : Rule)
  | set (items : List RuleItem)

mutual

/-- flattenItem is `_.flattenDeep` on one element. -/
def flattenItem : RuleItem → List Rule
  | .rule r => [r]
  | .set xs => flattenList xs

/-- flattenList models `_.flattenDeep(rules)`: the rule leaves in
depth-first document order. -/
def flattenList : List RuleItem → List Rule
  | [] => []
  | it :: rest => flattenItem it ++ flattenList rest

end

/-- mapKeyFor models the `mapKeys` callback of `getPathMap`
(`src/utils/index.ts`): `key + '[' + mkey.slice(0, i) + ']' +
mkey.slice(i)` when `mkey` contains a dot at index `i`, else
`key + '[' + mkey + ']'`. -/
def mapKeyFor (k : Nat) (mkey : String) : String :=
  let cs := mkey.toList
  if cs.contains '.' then
    toString k ++ "[" ++ String.mk (cs.takeWhile (fun c => c ≠ '.')) ++ "]" ++
      String.mk (cs.dropWhile (fun c => c ≠ '.'))
  else
    toString k ++ "[" ++ mkey ++ "]"

/-- isIndexKey tests whether a JS object key is an array-index key
(canonical numeral below `2^32 - 1`), which ECMAScript enumerates before
all other string keys. -/
def isIndexKey (s : String) : Bool :=
  match JVal.parseIndex s with
  | some n => toString n = s && n < 4294967295
  | none => false

/-- keyNat reads the numeric value of an index key. -/
def keyNat (s : String) : Nat := (JVal.parseIndex s).getD 0

/-- insertIndexKey is one step of an (ascending, stable) insertion sort on
index keys. -/
def insertIndexKey (e : String × Rule) : List (String × Rule) → List (String × Rule)
  | [] => [e]
  | f :: fs =>
    if keyNat e.1 ≤ keyNat f.1 then e :: f :: fs
    else f :: insertIndexKey e fs

/-- sortIndexEntries sorts index-key entries ascending by numeric value. -/
def sortIndexEntries (l : List (String × Rule)) : List (String × Rule) :=
  l.foldr insertIndexKey []

/-- jsEnumOrder models ECMAScript own-property enumeration order for the
objects `getPathMap` builds: array-index keys first in ascending numeric
order, then the remaining string keys in insertion order. Both
`Object.keys` in `processRules` and `_.mapKeys` inside `getPathMap`
observe this order. -/
def jsEnumOrder (m : List (String × Rule)) : List (String × Rule) :=
  sortIndexEntries (m.filter (fun e => isIndexKey e.1)) ++
    m.filter (fun e => !isIndexKey e.1)

mutual

/-- pmItem maps one array element at index `k` to its path entries: a rule
leaf gets the key `toString k`; a nested array contributes
`mapKeys(getPathMap(value), ...)` — its recursive path map read in JS
enumeration order, re-keyed under `k`. -/
def pmItem : RuleItem → Nat → List (String × Rule)
  | .rule r, k => [(toString k, r)]
  | .set xs, k =>
    (jsEnumOrder (pmList xs 0)).map (fun e => (mapKeyFor k e.1, e.2))

/-- pmList is `_.transform`'s traversal of the array in index order,
accumulating entries in insertion order. -/
def pmList : List RuleItem → Nat → List (String × Rule)
  | [], _ => []
  | it :: rest, k => pmItem it k ++ pmList rest (k + 1)

end

/-- getPathMap models `getPathMap(arr)` of `src/utils/index.ts`, read in
the enumeration order its callers observe. -/
def getPathMap (items : List RuleItem) : List (String × Rule) :=
  jsEnumOrder (pmList items 0)

/-- rulePaths is `Object.keys(getPathMap(rules))`. -/
def rulePaths (items : List RuleItem) : List String :=
  (getPathMap items).map Prod.fst

/-- isPartOfRuleSet models `rulePath.split('[').length > 1`: true exactly
when the path contains a `[`. -/
def isPartOfRuleSet (p : String) : Bool := p.toList.contains '['

/-- ruleIndexOf models `rulePath.split('[')[0]`: the prefix of the path
before its first `[` (the whole path when there is none). -/
def ruleIndexOf (p : String) : String :=
  String.mk (p.toList.takeWhile (fun c => c ≠ '['))

/-- selectAux models the `rulePaths.forEach` selection loop of
`processRules` over the enumerated `(index, (path, boolean))` list: a
leaf is pushed iff its boolean is true and it is either not part of a
rule set or its rule-set index has not been recorded in
`evaluatedRuleSets` yet; pushing a set member records its set index. -/
def selectAux (taken : List String) : List (Nat × String × Bool) → List Nat
  | [] => []
  | (i, p, b) :: rest =>
    if b && (!(isPartOfRuleSet p) || !(taken.contains (ruleIndexOf p))) then
      i :: selectAux (if isPartOfRuleSet p then taken ++ [ruleIndexOf p] else taken) rest
    else
      selectAux taken rest

/-- selectIndices runs the selection loop from an empty
`evaluatedRuleSets` and yields the selected positions in loop order. -/
def selectIndices (l : List (String × Bool)) : List Nat := selectAux [] l.enum

/-- lookupRuleByPath models `_.get(rules, rulePath)` on a key produced by
`getPathMap`: lodash's path parser maps such a key (digit runs separated
by brackets) back to exactly the index sequence it was generated from, so
the read retrieves the leaf associated with the key. -/
def lookupRuleByPath (items : List RuleItem) (p : String) : Option Rule :=
  (getPathMap items).lookup p

/-- resultsToBools reads the settled batch booleans (`processRules` only
reaches this once `Promise.all` has fulfilled, so every entry is `ok`). -/
def resultsToBools (rs : List (Except Err Bool)) : List Bool :=
  rs.map (fun r => isOkTrue r)

/-- processRules models `RuleEngine.processRules`
(`src/rule-engine/rule-engine.ts`): flatten the collection, evaluate all
conditions in one batch, run the selection loop over
`Object.keys(getPathMap(rules))` pairing position `index` with
`conditionValidationResults[index]`, and hand the selected rules in loop
order to the effect executor. -/
def processRules (condRes : CondResolvers) (effRes : EffResolvers)
    (items : List RuleItem) (ctx : JVal) : JVal × Option Err :=
  let flat := flattenList items
  let docs := flat.map (fun r => r.conditions)
  let er := condExecuteAll condRes docs none ctx
  match firstErr er.1 with
  | some e => (er.2.ctx, some e)
  | none =>
    let bools := resultsToBools er.1
    let paths := rulePaths items
    let chosen := selectIndices (paths.zip bools)
    let selected := chosen.filterMap (fun i => (paths.get? i).bind (lookupRuleByPath items))
    effExecuteAll effRes selected er.2.ctx

namespace CondV2

/-- assertSingleValue models `assertSingleValue` of the condition-resolver
module variant in `src/unnamed/part_004` (lines 249-253): only the
both-supplied case is rejected; supplying neither is not checked. -/
def assertSingleValue (value valuePath : Option JVal) : Except Err Unit :=
  if value.isSome && valuePath.isSome then
    .error "Cannot provide both value and valuePath!"
  else .ok ()

/-- getExpectedValue models `getExpectedValue` of `src/unnamed/part_004`:
the literal if defined, otherwise `_.get(context, valuePath)` — which is
`undefined` when `valuePath` is also absent. -/
def getExpectedValue (value valuePath : Option JVal) (ctx : JVal) :
    Except Err (Option JVal) := do
  assertSingleValue value valuePath
  match value with
  | some v => pure (some v)
  | none =>
    match valuePath with
    | some (.str p) => pure (JVal.getPath ctx p)
    | _ => pure none

/-- equalsNumber models the `equalsNumber` resolver of
`src/unnamed/part_004`: `_.isEqual(Number(value-at-path),
getExpectedValue(value, valuePath, context))`. -/
def equalsNumber (args : List (String × JVal)) (ctx : JVal) : Except Err Bool := do
  let actual := JVal.toNumber (getPathOpt ctx (argStr args "path"))
  let expected ← getExpectedValue (argLookup args "value") (argLookup args "valuePath") ctx
  pure (match actual, expected with
    | some a, some (.num e) => a == e
    | none, some .nan => true
    | _, _ => false)

end CondV2

/-- allOk extracts the boolean list of a batch of settled child results
when none of them rejected. -/
def allOk : List (Except Err Bool) → Option (List Bool)
  | [] => some []
  | .ok b :: rest => (allOk rest).map (fun bs => b :: bs)
  | .error _ :: _ => none

theorem isOkTrue_ok (b : Bool) : isOkTrue (.ok b) = b := by
  cases b <;> rfl

theorem allOk_props (rs : List (Except Err Bool)) (bs : List Bool)
    (h : allOk rs = some bs) :
    firstErr rs = none ∧ rs.all isOkTrue = bs.all id ∧
      rs.any isOkTrue = bs.any id ∧
      rs.countP (fun r => isOkTrue r) = bs.count true := by
  induction rs generalizing bs with
  | nil =>
    simp [allOk] at h
    subst h
    simp [firstErr]
  | cons r rest ih =>
    cases r with
    | ok b =>
      simp only [allOk, Option.map_eq_some'] at h
      obtain ⟨bs', hbs', rfl⟩ := h
      obtain ⟨h1, h2, h3, h4⟩ := ih bs' hbs'
      refine ⟨by simpa [firstErr] using h1, ?_, ?_, ?_⟩
      · simp [List.all_cons, h2, isOkTrue_ok]
      · simp [List.any_cons, h3, isOkTrue_ok]
      · simp [List.countP_cons, h4, isOkTrue_ok, List.count_cons]
    | error e => simp [allOk] at h

/-- C5: the evaluator satisfies the logical truth tables: an AND node (and
the document root, i.e. a bare multi-child list) is true iff every child
is true (vacuously true with no children), an OR node is true iff at
least one child is true, an XOR node is true iff exactly one child is
true, and a NOT node negates the implicit AND of its children (so a
single child is negated, and more than one child behaves as NAND). -/
theorem logical_truth_tables (res : CondResolvers) (cs : List Cond) (s : EvalSt)
    (bs : List Bool) (h : allOk (validateList res cs s).1 = some bs) :
    validateConditions res (.and cs) s = (.ok (bs.all id), (validateList res cs s).2) ∧
    validateConditions res (.or cs) s = (.ok (bs.any id), (validateList res cs s).2) ∧
    validateConditions res (.xor cs) s = (.ok (bs.count true == 1), (validateList res cs s).2) ∧
    validateConditions res (.not cs) s = (.ok (!(bs.all id)), (validateList res cs s).2) ∧
    executeDoc res cs s = (.ok (bs.all id), (validateList res cs s).2) ∧
    validateConditions res (.and []) s = (.ok true, s) := by
  obtain ⟨h1, h2, h3, h4⟩ := allOk_props _ _ h
  refine ⟨?_, ?_, ?_, ?_, ?_, ?_⟩
  · simp [validateConditions, combineAND, h1, h2]
  · simp [validateConditions, combineOR, h1, h3]
  · simp [validateConditions, combineXOR, h1, h4]
  · simp [validateConditions, combineNOT, combineAND, h1, h2]
  · simp [executeDoc, combineAND, h1, h2]
  · simp [validateConditions, validateList, combineAND, firstErr]

/-- Witness for the truth-table theorem at a concrete two-leaf batch. -/
theorem logical_truth_tables_witness :
    allOk (validateList defaultConditionResolvers
        [.pred "always" [], .pred "never" []] ⟨freshLoader, .obj []⟩).1 = some [true, false] ∧
      validateConditions defaultConditionResolvers (.and [.pred "always" [], .pred "never" []])
        ⟨freshLoader, .obj []⟩ =
        (.ok false,
          (validateList defaultConditionResolvers [.pred "always" [], .pred "never" []]
            ⟨freshLoader, .obj []⟩).2) := by
  have h : allOk (validateList defaultConditionResolvers
      [.pred "always" [], .pred "never" []] ⟨freshLoader, .obj []⟩).1 = some [true, false] := by
    decide
  exact ⟨h, (logical_truth_tables defaultConditionResolvers _ _ _ h).1⟩

theorem execOps_append (res : EffResolvers) (ops1 ops2 : List EffectField) (ctx : JVal) :
    execOps res (ops1 ++ ops2) ctx =
      ((execOps res ops2 (execOps res ops1 ctx).1).1,
        match (execOps res ops1 ctx).2 with
        | some e => some e
        | none => (execOps res ops2 (execOps res ops1 ctx).1).2) := by
  induction ops1 generalizing ctx with
  | nil => simp [execOps]
  | cons op ops1 ih =>
    simp only [List.cons_append, execOps]
    cases applyOp res op ctx with
    | ok ctx' => simpa using ih ctx'
    | error e => simp [ih ctx]

theorem effExecuteAll_append_ok (res : EffResolvers) (rs1 rs2 : List Rule) (ctx : JVal)
    (h : (effExecuteAll res rs1 ctx).2 = none) :
    effExecuteAll res (rs1 ++ rs2) ctx = effExecuteAll res rs2 (effExecuteAll res rs1 ctx).1 := by
  induction rs1 generalizing ctx with
  | nil => simp [effExecuteAll]
  | cons r rs1 ih =>
    simp only [effExecuteAll, List.cons_append] at h ⊢
    cases he : (execOps res r.effects (JVal.setField ctx "rule" (.obj r.meta))).2 with
    | some e => simp [he] at h
    | none =>
      simp only [he] at h ⊢
      exact ih _ h

/-- C4: effect application is sequential across rules — the rules after a
prefix operate on the context produced by fully executing the prefix, and
are not reached at all when the prefix rejects — while the operations
inside one rule are all started: operations after a rejecting sibling
still execute (on the sibling's unmutated context) and the rule settles
with its first error; consequently the rules `[add(x,4), multiply(x,3)]`
applied to a context with `x = 7` yield `x = (7+4)*3 = 33`. -/
theorem effect_sequencing_and_example :
    (∀ (res : EffResolvers) (rs1 rs2 : List Rule) (ctx : JVal),
      (effExecuteAll res rs1 ctx).2 = none →
        effExecuteAll res (rs1 ++ rs2) ctx =
          effExecuteAll res rs2 (effExecuteAll res rs1 ctx).1) ∧
    (∀ (res : EffResolvers) (ops1 ops2 : List EffectField) (ctx : JVal),
      execOps res (ops1 ++ ops2) ctx =
        ((execOps res ops2 (execOps res ops1 ctx).1).1,
          match (execOps res ops1 ctx).2 with
          | some e => some e
          | none => (execOps res ops2 (execOps res ops1 ctx).1).2)) ∧
    (JVal.jvalEqOpt
        (JVal.getPath
          (effExecuteAll defaultEffectResolvers
            [⟨[], [⟨"add", [("path", .str "x"), ("value", .num 4)]⟩], []⟩,
             ⟨[], [⟨"multiply", [("path", .str "x"), ("value", .num 3)]⟩], []⟩]
            (.obj [("x", .num 7)])).1 "x")
        (some (.num 33)) = true ∧
      (effExecuteAll defaultEffectResolvers
        [⟨[], [⟨"add", [("path", .str "x"), ("value", .num 4)]⟩], []⟩,
         ⟨[], [⟨"multiply", [("path", .str "x"), ("value", .num 3)]⟩], []⟩]
        (.obj [("x", .num 7)])).2 = none) :=
  ⟨effExecuteAll_append_ok, execOps_append, by decide, by decide⟩

/-- Witness instantiating the sequencing conjunct of the C4 theorem at a
concrete succeeding prefix. -/
theorem effect_sequencing_and_example_witness :
    (effExecuteAll defaultEffectResolvers
        [⟨[], [⟨"add", [("path", .str "x"), ("value", .num 4)]⟩], []⟩] (.obj [("x", .num 7)])).2
        = none ∧
      effExecuteAll defaultEffectResolvers
          ([⟨[], [⟨"add", [("path", .str "x"), ("value", .num 4)]⟩], []⟩] ++
            [⟨[], [⟨"multiply", [("path", .str "x"), ("value", .num 3)]⟩], []⟩])
          (.obj [("x", .num 7)]) =
        effExecuteAll defaultEffectResolvers
          [⟨[], [⟨"multiply", [("path", .str "x"), ("value", .num 3)]⟩], []⟩]
          (effExecuteAll defaultEffectResolvers
            [⟨[], [⟨"add", [("path", .str "x"), ("value", .num 4)]⟩], []⟩]
            (.obj [("x", .num 7)])).1 := by
  have h : (effExecuteAll defaultEffectResolvers
      [⟨[], [⟨"add", [("path", .str "x"), ("value", .num 4)]⟩], []⟩] (.obj [("x", .num 7)])).2
      = none := by decide
  exact ⟨h, effect_sequencing_and_example.1 defaultEffectResolvers _ _ _ h⟩

/-- C7: no transactionality. If the rules before `r` all succeed and
`r`'s effects reject, the whole call rejects with `r`'s first error; the
resulting context keeps every mutation of the preceding rules and of
`r`'s completed sibling operations, with no rollback; and the rules after
`r` are never reached — the result does not depend on them at all. -/
theorem no_transactionality (res : EffResolvers) (rs1 : List Rule) (r : Rule)
    (rs2 : List Rule) (ctx : JVal)
    (hok : (effExecuteAll res rs1 ctx).2 = none)
    (hfail : (execOps res r.effects
      (JVal.setField (effExecuteAll res rs1 ctx).1 "rule" (.obj r.meta))).2.isSome = true) :
    effExecuteAll res (rs1 ++ r :: rs2) ctx =
      ((execOps res r.effects
          (JVal.setField (effExecuteAll res rs1 ctx).1 "rule" (.obj r.meta))).1,
        (execOps res r.effects
          (JVal.setField (effExecuteAll res rs1 ctx).1 "rule" (.obj r.meta))).2) := by
  rw [effExecuteAll_append_ok res rs1 (r :: rs2) ctx hok]
  rw [Option.isSome_iff_exists] at hfail
  obtain ⟨e, he⟩ := hfail
  simp [effExecuteAll, he]

/-- Witness for C7: three rules where the second one's `add` finds no
number; the first rule's mutation (`x = 7+4 = 11`) stays applied, the
call rejects, and the third rule (which would multiply `x` by 5) never
runs — the run equals the run without it. -/
theorem no_transactionality_witness :
    (effExecuteAll defaultEffectResolvers
        [⟨[], [⟨"add", [("path", .str "x"), ("value", .num 4)]⟩], []⟩] (.obj [("x", .num 7)])).2
        = none ∧
      (execOps defaultEffectResolvers [⟨"add", [("path", .str "y"), ("value", .num 1)]⟩]
        (JVal.setField
          (effExecuteAll defaultEffectResolvers
            [⟨[], [⟨"add", [("path", .str "x"), ("value", .num 4)]⟩], []⟩]
            (.obj [("x", .num 7)])).1 "rule" (.obj []))).2.isSome = true ∧
      effExecuteAll defaultEffectResolvers
          ([⟨[], [⟨"add", [("path", .str "x"), ("value", .num 4)]⟩], []⟩] ++
            ⟨[], [⟨"add", [("path", .str "y"), ("value", .num 1)]⟩], []⟩ ::
              [⟨[], [⟨"multiply", [("path", .str "x"), ("value", .num 5)]⟩], []⟩])
          (.obj [("x", .num 7)]) =
        ((execOps defaultEffectResolvers [⟨"add", [("path", .str "y"), ("value", .num 1)]⟩]
            (JVal.setField
              (effExecuteAll defaultEffectResolvers
                [⟨[], [⟨"add", [("path", .str "x"), ("value", .num 4)]⟩], []⟩]
                (.obj [("x", .num 7)])).1 "rule" (.obj []))).1,
          (execOps defaultEffectResolvers [⟨"add", [("path", .str "y"), ("value", .num 1)]⟩]
            (JVal.setField
              (effExecuteAll defaultEffectResolvers
                [⟨[], [⟨"add", [("path", .str "x"), ("value", .num 4)]⟩], []⟩]
                (.obj [("x", .num 7)])).1 "rule" (.obj []))).2) ∧
      JVal.jvalEqOpt
        (JVal.getPath
          (effExecuteAll defaultEffectResolvers
            ([⟨[], [⟨"add", [("path", .str "x"), ("value", .num 4)]⟩], []⟩] ++
              ⟨[], [⟨"add", [("path", .str "y"), ("value", .num 1)]⟩], []⟩ ::
                [⟨[], [⟨"multiply", [("path", .str "x"), ("value", .num 5)]⟩], []⟩])
            (.obj [("x", .num 7)])).1 "x")
        (some (.num 11)) = true := by
  refine ⟨by decide, by decide, ?_, by decide⟩
  exact no_transactionality defaultEffectResolvers
    [⟨[], [⟨"add", [("path", .str "x"), ("value", .num 4)]⟩], []⟩]
    ⟨[], [⟨"add", [("path", .str "y"), ("value", .num 1)]⟩], []⟩
    [⟨[], [⟨"multiply", [("path", .str "x"), ("value", .num 5)]⟩], []⟩]
    (.obj [("x", .num 7)]) (by decide) (by decide)

theorem setFields_overwrite (k : String) (v1 v2 : JVal) (l : List (String × JVal)) :
    JVal.setFields k v2 (JVal.setFields k v1 l) = JVal.setFields k v2 l := by
  induction l with
  | nil => simp [JVal.setFields]
  | cons e rest ih =>
    obtain ⟨k', w⟩ := e
    by_cases hk : k' = k <;> simp [JVal.setFields, hk, ih]

theorem setField_overwrite (ctx : JVal) (k : String) (m1 m2 : JVal) :
    JVal.setField (JVal.setField ctx k m1) k m2 = JVal.setField ctx k m2 := by
  cases ctx <;> simp [JVal.setField, setFields_overwrite]

/-- C8 counterexample: the injected rule metadata is not removed when the
call completes. Executing one rule with metadata `bar = 5` and no effects
on an empty context (which has no `rule` key) leaves `rule` present on
the caller's context after `executeAll` returns — refuting the claim that
the injected metadata is not part of the caller's context shape after the
call. -/
theorem rule_metadata_persists_counterexample :
    effExecuteAll defaultEffectResolvers [⟨[], [], [("bar", .num 5)]⟩] (.obj []) =
        (.obj [("rule", .obj [("bar", .num 5)])], none) ∧
      JVal.getPath (.obj []) "rule" = none ∧
      JVal.getPath (.obj [("rule", .obj [("bar", .num 5)])]) "rule" =
        some (.obj [("bar", .num 5)]) := by
  refine ⟨by rfl, by rfl, by rfl⟩

/-- C8 amended: before each rule's effects, the rule's fields other than
`conditions` and `effects` are assigned to the context under the reserved
key `rule` (so its operations read their own rule's metadata); each
subsequent rule's assignment overwrites the previous one; and the
injected key is never removed — after the call the context retains the
metadata of the last executed rule. -/
theorem rule_metadata_injection :
    (∀ (res : EffResolvers) (ctx : JVal) (r : Rule) (rest : List Rule),
      r.effects = [] →
        effExecuteAll res (r :: rest) ctx =
          effExecuteAll res rest (JVal.setField ctx "rule" (.obj r.meta))) ∧
    (∀ (ctx : JVal) (m1 m2 : JVal),
      JVal.setField (JVal.setField ctx "rule" m1) "rule" m2 = JVal.setField ctx "rule" m2) ∧
    (∀ (res : EffResolvers) (ctx : JVal) (r : Rule),
      r.effects = [] →
        effExecuteAll res [r] ctx = (JVal.setField ctx "rule" (.obj r.meta), none)) := by
  refine ⟨?_, ?_, ?_⟩
  · intro res ctx r rest h
    simp [effExecuteAll, h, execOps]
  · intro ctx m1 m2
    exact setField_overwrite ctx "rule" m1 m2
  · intro res ctx r h
    simp [effExecuteAll, h, execOps]

/-- Witness for the C8 amended theorem at two metadata-only rules: the
second rule's metadata overwrites the first, and it is still on the
context when the call returns. -/
theorem rule_metadata_injection_witness :
    (⟨[], [], [("bar", JVal.num 5)]⟩ : Rule).effects = [] ∧
      effExecuteAll defaultEffectResolvers
          [⟨[], [], [("bar", .num 5)]⟩, ⟨[], [], [("baz", .num 6)]⟩] (.obj []) =
        (.obj [("rule", .obj [("baz", .num 6)])], none) := by
  refine ⟨rfl, ?_⟩
  have h1 := rule_metadata_injection.1 defaultEffectResolvers (.obj [])
    ⟨[], [], [("bar", .num 5)]⟩ [⟨[], [], [("baz", .num 6)]⟩] rfl
  have h3 := rule_metadata_injection.2.2 defaultEffectResolvers
    (JVal.setField (.obj []) "rule" (.obj [("bar", .num 5)])) ⟨[], [], [("baz", .num 6)]⟩ rfl
  rw [h1, h3]
  rw [rule_metadata_injection.2.1]
  rfl

theorem execOps_mem_error (res : EffResolvers) (ops : List EffectField) (op : EffectField)
    (ctx : JVal) (hmem : op ∈ ops) (hres : res op.name = none) :
    (execOps res ops ctx).2.isSome = true := by
  induction ops generalizing ctx with
  | nil => cases hmem
  | cons o rest ih =>
    rcases List.mem_cons.mp hmem with h | h
    · subst h
      simp [execOps, applyOp, hres]
    · simp only [execOps]
      cases happ : applyOp res o ctx with
      | ok ctx' => exact ih ctx' h
      | error e => simp

/-- C6: the asymmetric unknown-resolver policy. A predicate leaf whose
name has no registered resolver evaluates to `ok false` (the `_.noop`
fallback's `undefined` coerced to a boolean) without raising any error,
merely caching that result; an effect operation whose name has no
registered resolver fails with the unknown-operation error, and any
`executeAll` whose rules contain such an operation rejects. -/
theorem unknown_resolver_asymmetry :
    (∀ (res : CondResolvers) (name : String) (args : List (String × JVal)) (s : EvalSt),
      res name = none →
        s.loader.cache.lookup (cacheKey name args) = none →
          validateConditions res (.pred name args) s =
            (.ok false,
              ⟨⟨(cacheKey name args, .ok false) :: s.loader.cache,
                s.loader.calls ++ [cacheKey name args]⟩, s.ctx⟩)) ∧
    (∀ (res : EffResolvers) (op : EffectField) (ctx : JVal),
      res op.name = none →
        applyOp res op ctx =
          .error ("Missing resolver for effect \"" ++ op.name ++ "\"")) ∧
    (∀ (res : EffResolvers) (rules : List Rule) (r : Rule) (op : EffectField) (ctx : JVal),
      r ∈ rules → op ∈ r.effects → res op.name = none →
        (effExecuteAll res rules ctx).2.isSome = true) := by
  refine ⟨?_, ?_, ?_⟩
  · intro res name args s hres hmiss
    simp [validateConditions, load, hres, hmiss]
  · intro res op ctx hres
    simp [applyOp, hres]
  · intro res rules r op ctx hr hop hres
    induction rules generalizing ctx with
    | nil => cases hr
    | cons r0 rest ih =>
      rcases List.mem_cons.mp hr with h | h
      · subst h
        simp only [effExecuteAll]
        have hx := execOps_mem_error res r.effects op
          (JVal.setField ctx "rule" (.obj r.meta)) hop hres
        rw [Option.isSome_iff_exists] at hx
        obtain ⟨e, he⟩ := hx
        simp [he]
      · simp only [effExecuteAll]
        cases he : (execOps res r0.effects (JVal.setField ctx "rule" (.obj r0.meta))).2 with
        | some e => simp [he]
        | none =>
          simp only [he]
          exact ih _ h

/-- Witness for C6 at an unregistered predicate name and an unregistered
effect operation against the default resolver maps. -/
theorem unknown_resolver_asymmetry_witness :
    defaultConditionResolvers "noSuchPredicate" = none ∧
      validateConditions defaultConditionResolvers (.pred "noSuchPredicate" [])
          ⟨freshLoader, .obj []⟩ =
        (.ok false,
          ⟨⟨[(cacheKey "noSuchPredicate" [], .ok false)], [cacheKey "noSuchPredicate" []]⟩,
            .obj []⟩) ∧
      defaultEffectResolvers "noSuchOp" = none ∧
      applyOp defaultEffectResolvers ⟨"noSuchOp", []⟩ (.obj []) =
        .error ("Missing resolver for effect \"" ++ "noSuchOp" ++ "\"") ∧
      (effExecuteAll defaultEffectResolvers [⟨[], [⟨"noSuchOp", []⟩], []⟩] (.obj [])).2.isSome
        = true := by
  refine ⟨by rfl, ?_, by rfl, ?_, ?_⟩
  · exact unknown_resolver_asymmetry.1 defaultConditionResolvers "noSuchPredicate" []
      ⟨freshLoader, .obj []⟩ (by rfl) (by rfl)
  · exact unknown_resolver_asymmetry.2.1 defaultEffectResolvers ⟨"noSuchOp", []⟩ (.obj [])
      (by rfl)
  · exact unknown_resolver_asymmetry.2.2 defaultEffectResolvers
      [⟨[], [⟨"noSuchOp", []⟩], []⟩] ⟨[], [⟨"noSuchOp", []⟩], []⟩ ⟨"noSuchOp", []⟩ (.obj [])
      (by simp) (by simp) (by rfl)

/-- C9 counterexample: in the condition-resolver variant of
`src/unnamed/part_004`, `assertSingleValue` only rejects the
both-supplied case, so a predicate that requires a comparison value
(here `equalsNumber`) evaluates without any configuration error when
neither `value` nor `valuePath` is supplied — it silently compares
against the undefined path read — refuting the claim that the
neither-supplied case raises a configuration error in both modules. -/
theorem condv2_neither_unchecked_counterexample :
    CondV2.assertSingleValue none none = .ok () ∧
      CondV2.getExpectedValue none none (.obj [("x", .num 3)]) = .ok none ∧
      CondV2.equalsNumber [("path", .str "x")] (.obj [("x", .num 3)]) = .ok false := by
  refine ⟨rfl, rfl, rfl⟩

/-- C9 amended: for the effect resolvers (`src/effects/effects.ts`),
supplying both `value` and `valuePath` or neither raises the
configuration error at argument-resolution time, before the resolver's
main work (the resolver returns the error with the context untouched);
the part_004 condition variant raises the both-supplied error in the same
way but does not check the neither-supplied case. -/
theorem argument_exclusivity :
    (∀ (v p : Option JVal), v.isSome = true → p.isSome = true →
      assertSingleValue v p = .error "Cannot provide both value and valuePath!") ∧
    assertSingleValue none none = .error "Must provide either value or valuePath" ∧
    (∀ (args : List (String × JVal)) (ctx : JVal) (v w : JVal),
      argLookup args "value" = some v → argLookup args "valuePath" = some w →
        EffDefaults.add args ctx = .error "Cannot provide both value and valuePath!") ∧
    (∀ (args : List (String × JVal)) (ctx : JVal),
      argLookup args "value" = none → argLookup args "valuePath" = none →
        EffDefaults.add args ctx = .error "Must provide either value or valuePath") ∧
    (∀ (args : List (String × JVal)) (ctx : JVal) (v w : JVal),
      argLookup args "value" = some v → argLookup args "valuePath" = some w →
        EffDefaults.set args ctx = .error "Cannot provide both value and valuePath!") ∧
    (∀ (v p : Option JVal), v.isSome = true → p.isSome = true →
      CondV2.assertSingleValue v p = .error "Cannot provide both value and valuePath!") := by
  refine ⟨?_, rfl, ?_, ?_, ?_, ?_⟩
  · intro v p hv hp
    simp [assertSingleValue, hv, hp]
  · intro args ctx v w hv hw
    simp only [EffDefaults.add, getValue, assertSingleValue, hv, hw, Option.isSome_some,
      Bool.and_self, if_true, bind, Except.bind]
  · intro args ctx hv hw
    simp only [EffDefaults.add, getValue, assertSingleValue, hv, hw, Option.isSome_none,
      Option.isNone_none, Bool.and_self, Bool.and_false, Bool.false_and, if_false,
      Bool.not_true, if_true, bind, Except.bind]
    rfl
  · intro args ctx v w hv hw
    simp only [EffDefaults.set, getParsedValue, assertSingleValue, hv, hw, Option.isSome_some,
      Bool.and_self, if_true, bind, Except.bind]
  · intro v p hv hp
    simp [CondV2.assertSingleValue, hv, hp]

/-- Witness for the C9 amended theorem at concrete argument maps. -/
theorem argument_exclusivity_witness :
    ((some (JVal.num 1)).isSome = true ∧ (some (JVal.str "p")).isSome = true ∧
        assertSingleValue (some (.num 1)) (some (.str "p")) =
          .error "Cannot provide both value and valuePath!") ∧
      (argLookup [("path", JVal.str "x"), ("value", JVal.num 1), ("valuePath", JVal.str "y")]
          "value" = some (.num 1) ∧
        EffDefaults.add [("path", .str "x"), ("value", .num 1), ("valuePath", .str "y")]
            (.obj [("x", .num 7)]) =
          .error "Cannot provide both value and valuePath!") ∧
      EffDefaults.add [("path", .str "x")] (.obj [("x", .num 7)]) =
        .error "Must provide either value or valuePath" := by
  refine ⟨⟨rfl, rfl, ?_⟩, ⟨rfl, ?_⟩, ?_⟩
  · exact argument_exclusivity.1 (some (.num 1)) (some (.str "p")) rfl rfl
  · exact argument_exclusivity.2.2.1
      [("path", .str "x"), ("value", .num 1), ("valuePath", .str "y")]
      (.obj [("x", .num 7)]) (.num 1) (.str "y") rfl rfl
  · exact argument_exclusivity.2.2.2.1 [("path", .str "x")] (.obj [("x", .num 7)]) rfl rfl

theorem lookup_isSome_iff {β : Type} (l : List (String × β)) (k : String) :
    (l.lookup k).isSome = true ↔ k ∈ l.map Prod.fst := by
  induction l with
  | nil => simp [List.lookup]
  | cons e rest ih =>
    obtain ⟨a, b⟩ := e
    by_cases hk : k = a
    · subst hk
      simp [List.lookup]
    · have : (k == a) = false := beq_false_of_ne hk
      simp [List.lookup, this, ih, hk]

/-- loaderInv is the DataLoader cache-coherence invariant: the resolver
was invoked at most once per key, the cache holds at most one entry per
key, and the invoked keys are exactly the cached keys. -/
def loaderInv (ld : Loader) : Prop :=
  ld.calls.Nodup ∧ (ld.cache.map Prod.fst).Nodup ∧
    ∀ k, k ∈ ld.calls ↔ k ∈ ld.cache.map Prod.fst

theorem loaderInv_fresh : loaderInv freshLoader := by
  refine ⟨List.nodup_nil, List.nodup_nil, ?_⟩
  simp [freshLoader]

theorem load_calls (res : CondResolvers) (name : String) (args : List (String × JVal))
    (s : EvalSt) (h : loaderInv s.loader) :
    loaderInv (load res name args s).2.loader ∧
      ∀ k, k ∈ (load res name args s).2.loader.calls ↔
        (k ∈ s.loader.calls ∨ k = cacheKey name args) := by
  obtain ⟨hnd, hcd, hiff⟩ := h
  unfold load
  cases hc : s.loader.cache.lookup (cacheKey name args) with
  | some r =>
    simp only [hc]
    refine ⟨⟨hnd, hcd, hiff⟩, ?_⟩
    intro k
    constructor
    · exact Or.inl
    · rintro (hk | rfl)
      · exact hk
      · have hs : (s.loader.cache.lookup (cacheKey name args)).isSome = true := by
          rw [hc]; rfl
        exact (hiff _).mpr ((lookup_isSome_iff _ _).mp hs)
  | none =>
    have hnotc : cacheKey name args ∉ s.loader.cache.map Prod.fst := by
      intro hmem
      have := (lookup_isSome_iff s.loader.cache (cacheKey name args)).mpr hmem
      rw [hc] at this
      cases this
    have hnotcalls : cacheKey name args ∉ s.loader.calls := fun hm => hnotc ((hiff _).mp hm)
    simp only [hc]
    refine ⟨⟨?_, ?_, ?_⟩, ?_⟩
    · exact List.Nodup.append hnd (List.nodup_singleton _)
        (by simpa [List.disjoint_singleton] using hnotcalls)
    · exact List.nodup_cons.mpr ⟨hnotc, hcd⟩
    · intro k
      simp only [List.mem_append, List.map_cons, List.mem_cons, List.mem_singleton,
        List.not_mem_nil, or_false]
      constructor
      · rintro (hk | rfl)
        · exact Or.inr ((hiff _).mp hk)
        · exact Or.inl rfl
      · rintro (rfl | hk)
        · exact Or.inr rfl
        · exact Or.inl ((hiff _).mpr hk)
    · intro k
      simp [List.mem_append]

mutual

theorem validate_calls (res : CondResolvers) (c : Cond) (s : EvalSt)
    (h : loaderInv s.loader) :
    loaderInv (validateConditions res c s).2.loader ∧
      ∀ k, k ∈ (validateConditions res c s).2.loader.calls ↔
        (k ∈ s.loader.calls ∨ k ∈ leafKeys c) := by
  cases c with
  | and cs =>
    have := validateList_calls res cs s h
    simpa [validateConditions, leafKeys] using this
  | or cs =>
    have := validateList_calls res cs s h
    simpa [validateConditions, leafKeys] using this
  | xor cs =>
    have := validateList_calls res cs s h
    simpa [validateConditions, leafKeys] using this
  | not cs =>
    have := validateList_calls res cs s h
    simpa [validateConditions, leafKeys] using this
  | pred name args =>
    have := load_calls res name args s h
    simpa [validateConditions, leafKeys] using this

theorem validateList_calls (res : CondResolvers) (cs : List Cond) (s : EvalSt)
    (h : loaderInv s.loader) :
    loaderInv (validateList res cs s).2.loader ∧
      ∀ k, k ∈ (validateList res cs s).2.loader.calls ↔
        (k ∈ s.loader.calls ∨ k ∈ leafKeysList cs) := by
  cases cs with
  | nil =>
    refine ⟨h, ?_⟩
    simp [validateList, leafKeysList]
  | cons c cs =>
    obtain ⟨h1, hiff1⟩ := validate_calls res c s h
    obtain ⟨h2, hiff2⟩ := validateList_calls res cs (validateConditions res c s).2 h1
    refine ⟨by simpa [validateList] using h2, ?_⟩
    intro k
    have := hiff2 k
    rw [hiff1 k] at this
    simpa [validateList, leafKeysList, or_assoc, List.mem_append] using this

end

theorem docsGo_calls (res : CondResolvers) (docs : List (List Cond)) (s : EvalSt)
    (h : loaderInv s.loader) :
    loaderInv (docsGo res docs s).2.loader ∧
      ∀ k, k ∈ (docsGo res docs s).2.loader.calls ↔
        (k ∈ s.loader.calls ∨ k ∈ batchLeafKeys docs) := by
  induction docs generalizing s with
  | nil =>
    refine ⟨h, ?_⟩
    simp [docsGo, batchLeafKeys]
  | cons d ds ih =>
    obtain ⟨h1, hiff1⟩ := validateList_calls res d s h
    have h1' : loaderInv (executeDoc res d s).2.loader := by
      simpa [executeDoc] using h1
    obtain ⟨h2, hiff2⟩ := ih (executeDoc res d s).2 h1'
    refine ⟨by simpa [docsGo] using h2, ?_⟩
    intro k
    have hx := hiff2 k
    have hy : k ∈ (executeDoc res d s).2.loader.calls ↔
        (k ∈ s.loader.calls ∨ k ∈ leafKeysList d) := by
      simpa [executeDoc] using hiff1 k
    rw [hy] at hx
    simpa [docsGo, batchLeafKeys, or_assoc, List.mem_append] using hx

/-- tripleDoc is the spec's dedup example: the predicate `isTruthy` is
invoked with identical arguments three times across the two trees of one
batch. -/
def tripleDoc : List (List Cond) :=
  [[.pred "isTruthy" [("path", .str "x")], .pred "isTruthy" [("path", .str "x")]],
   [.pred "isTruthy" [("path", .str "x")]]]

/-- C3: within one `executeAll` batch, the DataLoader serves all predicate
invocations that share a cache key (same name, deep-equal — identically
serialized — argument map) by exactly one underlying resolver call: the
invoked-key list has no duplicates and contains exactly the keys of the
batch's predicate leaves, and the cache holds a single shared entry per
key. The cache is created fresh inside each `executeAll` call — whatever
loader a previous call left behind is discarded, so no result is carried
from one call into a later one. The spec's concrete instance: a predicate
invoked identically three times across the batch runs its resolver
exactly once. -/
theorem condition_dedup_single_flight (res : CondResolvers) (docs : List (List Cond))
    (prior : Option Loader) (ctx : JVal) :
    condExecuteAll res docs prior ctx = condExecuteAll res docs none ctx ∧
    (condExecuteAll res docs prior ctx).2.loader.calls.Nodup ∧
    ((condExecuteAll res docs prior ctx).2.loader.cache.map Prod.fst).Nodup ∧
    (∀ k, k ∈ (condExecuteAll res docs prior ctx).2.loader.calls ↔ k ∈ batchLeafKeys docs) ∧
    (condExecuteAll defaultConditionResolvers tripleDoc none
        (.obj [("x", .num 5)])).2.loader.calls =
      [cacheKey "isTruthy" [("path", .str "x")]] := by
  obtain ⟨⟨hnd, hcd, _⟩, hiff⟩ := docsGo_calls res docs ⟨freshLoader, ctx⟩ loaderInv_fresh
  refine ⟨rfl, hnd, hcd, ?_, by rfl⟩
  intro k
  have := hiff k
  simpa [freshLoader] using this

/-- ResolversPreserve states that every registered resolver returns the
context it was given (it reads but never writes). -/
def ResolversPreserve (res : CondResolvers) : Prop :=
  ∀ name f, res name = some f →
    ∀ args ctx v ctx', f args ctx = .ok (v, ctx') → ctx' = ctx

theorem readerResolver_preserves (g : List (String × JVal) → JVal → Except Err (Option JVal))
    (args : List (String × JVal)) (ctx : JVal) (v : Option JVal) (ctx' : JVal)
    (h : readerResolver g args ctx = .ok (v, ctx')) : ctx' = ctx := by
  unfold readerResolver at h
  cases hg : g args ctx with
  | ok w =>
    rw [hg] at h
    simp only [Except.map] at h
    cases h
    rfl
  | error e =>
    rw [hg] at h
    simp [Except.map] at h

theorem load_ctx (res : CondResolvers) (hres : ResolversPreserve res) (name : String)
    (args : List (String × JVal)) (s : EvalSt) :
    (load res name args s).2.ctx = s.ctx := by
  unfold load
  cases hc : s.loader.cache.lookup (cacheKey name args) with
  | some r => simp only [hc]
  | none =>
    simp only [hc]
    cases hr : res name with
    | none => rfl
    | some f =>
      cases hf : f args s.ctx with
      | ok p =>
        obtain ⟨v, ctx'⟩ := p
        simp only [hr, hf]
        exact hres name f hr args s.ctx v ctx' hf
      | error e => simp [hr, hf]

mutual

theorem validate_ctx (res : CondResolvers) (hres : ResolversPreserve res) (c : Cond)
    (s : EvalSt) : (validateConditions res c s).2.ctx = s.ctx := by
  cases c with
  | and cs => simpa [validateConditions] using validateList_ctx res hres cs s
  | or cs => simpa [validateConditions] using validateList_ctx res hres cs s
  | xor cs => simpa [validateConditions] using validateList_ctx res hres cs s
  | not cs => simpa [validateConditions] using validateList_ctx res hres cs s
  | pred name args => simpa [validateConditions] using load_ctx res hres name args s

theorem validateList_ctx (res : CondResolvers) (hres : ResolversPreserve res)
    (cs : List Cond) (s : EvalSt) : (validateList res cs s).2.ctx = s.ctx := by
  cases cs with
  | nil => rfl
  | cons c cs =>
    have h1 := validate_ctx res hres c s
    have h2 := validateList_ctx res hres cs (validateConditions res c s).2
    simp only [validateList]
    rw [h2, h1]

end

theorem docsGo_ctx (res : CondResolvers) (hres : ResolversPreserve res)
    (docs : List (List Cond)) (s : EvalSt) : (docsGo res docs s).2.ctx = s.ctx := by
  induction docs generalizing s with
  | nil => rfl
  | cons d ds ih =>
    have h1 : (executeDoc res d s).2.ctx = s.ctx := by
      simpa [executeDoc] using validateList_ctx res hres d s
    have h2 := ih (executeDoc res d s).2
    simp only [docsGo]
    rw [h2, h1]

theorem lookup_mem_snd {β : Type} (l : List (String × β)) (k : String) (v : β)
    (h : l.lookup k = some v) : v ∈ l.map Prod.snd := by
  induction l with
  | nil => simp [List.lookup] at h
  | cons e rest ih =>
    obtain ⟨a, b⟩ := e
    by_cases hk : k = a
    · subst hk
      have hb : (k == k) = true := beq_self_eq_true k
      simp only [List.lookup, hb] at h
      cases h
      simp
    · have hb : (k == a) = false := beq_false_of_ne hk
      simp only [List.lookup, hb] at h
      simp [ih h]

theorem defaults_preserve : ResolversPreserve defaultConditionResolvers := by
  intro name f h args ctx v ctx' happ
  have hmem := lookup_mem_snd defaultConditionList name f h
  simp only [defaultConditionList, List.map_cons, List.map_nil, List.mem_cons,
    List.not_mem_nil, or_false] at hmem
  rcases hmem with rfl | rfl | rfl | rfl | rfl | rfl | rfl | rfl | rfl | rfl | rfl | rfl |
    rfl | rfl | rfl | rfl | rfl | rfl | rfl <;>
    exact readerResolver_preserves _ args ctx v ctx' happ

/-- C10: evaluating any batch of condition documents with the default
condition resolvers leaves the execution context unchanged — every
default resolver only reads the context (each is a lifted read-only body)
and never writes to it, so `ConditionExecutor.executeAll` has no
observable effect on the context. -/
theorem default_condition_resolvers_readonly :
    ResolversPreserve defaultConditionResolvers ∧
      ∀ (docs : List (List Cond)) (prior : Option Loader) (ctx : JVal),
        (condExecuteAll defaultConditionResolvers docs prior ctx).2.ctx = ctx :=
  ⟨defaults_preserve, fun docs _prior ctx =>
    docsGo_ctx defaultConditionResolvers defaults_preserve docs ⟨freshLoader, ctx⟩⟩

theorem selectAux_subset (E : List (Nat × String × Bool)) (taken : List String) (i : Nat)
    (h : i ∈ selectAux taken E) : i ∈ E.map (fun e => e.1) := by
  induction E generalizing taken with
  | nil => cases h
  | cons e rest ih =>
    obtain ⟨j, p, b⟩ := e
    simp only [selectAux] at h
    split at h
    · rcases List.mem_cons.mp h with rfl | h
      · simp
      · simp only [List.map_cons, List.mem_cons]
        exact Or.inr (ih _ h)
    · simp only [List.map_cons, List.mem_cons]
      exact Or.inr (ih _ h)

theorem not_mem_selectAux_of_lt (E : List (Nat × String × Bool)) (taken : List String)
    (i0 : Nat) (h : ∀ x ∈ E.map (fun e => e.1), i0 < x) : i0 ∉ selectAux taken E :=
  fun hmem => absurd (h i0 (selectAux_subset E taken i0 hmem)) (lt_irrefl i0)

theorem contains_false_iff (l : List String) (s : String) : l.contains s = false ↔ s ∉ l := by
  simp

theorem contains_append_false_iff (l1 l2 : List String) (s : String) :
    (l1 ++ l2).contains s = false ↔ (l1.contains s = false ∧ l2.contains s = false) := by
  rw [contains_false_iff, contains_false_iff, contains_false_iff, List.mem_append]
  tauto

theorem contains_singleton_false_iff (x s : String) :
    ([x].contains s = false) ↔ s ≠ x := by
  rw [contains_false_iff]
  simp

theorem selectAux_mem_iff (E : List (Nat × String × Bool)) (taken : List String)
    (hmono : (E.map (fun e => e.1)).Pairwise (· < ·)) (i : Nat) (p : String) (b : Bool)
    (hin : (i, p, b) ∈ E) :
    i ∈ selectAux taken E ↔
      (b = true ∧
        (isPartOfRuleSet p = false ∨
          (taken.contains (ruleIndexOf p) = false ∧
            ∀ j q c, (j, q, c) ∈ E → j < i → j ∈ selectAux taken E →
              isPartOfRuleSet q = true → ruleIndexOf q ≠ ruleIndexOf p))) := by
  induction E generalizing taken with
  | nil => cases hin
  | cons e rest ih =>
    obtain ⟨i0, p0, b0⟩ := e
    have hmono' : (rest.map (fun e => e.1)).Pairwise (· < ·) :=
      (List.pairwise_cons.mp (by simpa using hmono)).2
    have hlt : ∀ x ∈ rest.map (fun e => e.1), i0 < x :=
      (List.pairwise_cons.mp (by simpa using hmono)).1
    have hltmem : ∀ j q c, (j, q, c) ∈ rest → i0 < j := by
      intro j q c hj
      exact hlt j (List.mem_map.mpr ⟨(j, q, c), hj, rfl⟩)
    simp only [selectAux]
    by_cases hcond : (b0 && (!(isPartOfRuleSet p0) || !(taken.contains (ruleIndexOf p0)))) = true
    · -- the head leaf is selected
      rw [if_pos hcond]
      have hcond' := hcond
      rw [Bool.and_eq_true] at hcond'
      have hb0 : b0 = true := hcond'.1
      rcases List.mem_cons.mp hin with heq | hinrest
      · -- characterizing the head itself
        injection heq with h1 h2
        injection h2 with h2 h3
        subst h1; subst h2; subst h3
        refine iff_of_true (List.mem_cons_self _ _) ⟨hb0, ?_⟩
        by_cases hset : isPartOfRuleSet p = true
        · refine Or.inr ⟨?_, ?_⟩
          · have h2 := hcond'.2
            rw [hset] at h2
            simpa using h2
          · intro j q c hj hji _hsel _hq
            rcases List.mem_cons.mp hj with heq' | hj'
            · injection heq' with e1 _
              omega
            · exact absurd hji (by have := hltmem j q c hj'; omega)
        · exact Or.inl (by simpa using hset)
      · -- characterizing a leaf of the tail
        have hi0i : i0 < i := hltmem i p b hinrest
        have hne : i ≠ i0 := by omega
        by_cases hset0 : isPartOfRuleSet p0 = true
        · -- the selected head is a rule-set member: its group is recorded
          rw [hset0]
          simp only [if_true]
          have hmem_iff : i ∈ i0 :: selectAux (taken ++ [ruleIndexOf p0]) rest ↔
              i ∈ selectAux (taken ++ [ruleIndexOf p0]) rest := by
            simp [List.mem_cons, hne]
          rw [hmem_iff, ih (taken ++ [ruleIndexOf p0]) hmono' hinrest]
          constructor
          · rintro ⟨hb, hrest⟩
            refine ⟨hb, ?_⟩
            rcases hrest with hbare | ⟨hnotk, hall⟩
            · exact Or.inl hbare
            · obtain ⟨hnk1, hnk2⟩ := (contains_append_false_iff _ _ _).mp hnotk
              have hgne : ruleIndexOf p ≠ ruleIndexOf p0 :=
                (contains_singleton_false_iff _ _).mp hnk2
              refine Or.inr ⟨hnk1, ?_⟩
              intro j q c hj hji hjsel hq
              rcases List.mem_cons.mp hj with heq' | hj'
              · injection heq' with e1 e2
                injection e2 with e2 e3
                subst e1; subst e2
                exact fun hh => hgne (by rw [hh])
              · have hjsel' : j ∈ selectAux (taken ++ [ruleIndexOf p0]) rest := by
                  rcases List.mem_cons.mp hjsel with rfl | hs
                  · have := hltmem j q c hj'; omega
                  · exact hs
                exact hall j q c hj' hji hjsel' hq
          · rintro ⟨hb, hrest⟩
            refine ⟨hb, ?_⟩
            rcases hrest with hbare | ⟨hnotk, hall⟩
            · exact Or.inl hbare
            · have hg0 : ruleIndexOf p0 ≠ ruleIndexOf p := by
                refine hall i0 p0 b0 (List.mem_cons_self _ _) hi0i
                  (List.mem_cons_self _ _) hset0
              refine Or.inr ⟨?_, ?_⟩
              · refine (contains_append_false_iff _ _ _).mpr ⟨hnotk, ?_⟩
                exact (contains_singleton_false_iff _ _).mpr (fun hh => hg0 hh.symm)
              · intro j q c hj' hji hjsel hq
                exact hall j q c (List.mem_cons_of_mem _ hj') hji
                  (List.mem_cons_of_mem _ hjsel) hq
        · -- the selected head is a bare rule: nothing is recorded
          have hset0' : isPartOfRuleSet p0 = false := by simpa using hset0
          rw [hset0']
          simp only [Bool.false_eq_true, if_false]
          have hmem_iff : i ∈ i0 :: selectAux taken rest ↔ i ∈ selectAux taken rest := by
            simp [List.mem_cons, hne]
          rw [hmem_iff, ih taken hmono' hinrest]
          constructor
          · rintro ⟨hb, hrest⟩
            refine ⟨hb, ?_⟩
            rcases hrest with hbare | ⟨hnotk, hall⟩
            · exact Or.inl hbare
            · refine Or.inr ⟨hnotk, ?_⟩
              intro j q c hj hji hjsel hq
              rcases List.mem_cons.mp hj with heq' | hj'
              · injection heq' with e1 e2
                injection e2 with e2 e3
                subst e1; subst e2
                rw [hset0'] at hq
                cases hq
              · have hjsel' : j ∈ selectAux taken rest := by
                  rcases List.mem_cons.mp hjsel with rfl | hs
                  · have := hltmem j q c hj'; omega
                  · exact hs
                exact hall j q c hj' hji hjsel' hq
          · rintro ⟨hb, hrest⟩
            refine ⟨hb, ?_⟩
            rcases hrest with hbare | ⟨hnotk, hall⟩
            · exact Or.inl hbare
            · refine Or.inr ⟨hnotk, ?_⟩
              intro j q c hj' hji hjsel hq
              exact hall j q c (List.mem_cons_of_mem _ hj') hji
                (List.mem_cons_of_mem _ hjsel) hq
    · -- the head leaf is rejected
      rw [if_neg hcond]
      have hnotsel0 : i0 ∉ selectAux taken rest := not_mem_selectAux_of_lt rest taken i0 hlt
      rcases List.mem_cons.mp hin with heq | hinrest
      · injection heq with h1 h2
        injection h2 with h2 h3
        subst h1; subst h2; subst h3
        refine iff_of_false hnotsel0 ?_
        rintro ⟨hb, hrest⟩
        apply hcond
        rw [Bool.and_eq_true]
        refine ⟨hb, ?_⟩
        rcases hrest with hbare | ⟨hnotk, _⟩
        · simp [hbare]
        · simp only [Bool.or_eq_true, Bool.not_eq_true']
          exact Or.inr hnotk
      · have hi0i : i0 < i := hltmem i p b hinrest
        rw [ih taken hmono' hinrest]
        constructor
        · rintro ⟨hb, hrest⟩
          refine ⟨hb, ?_⟩
          rcases hrest with hbare | ⟨hnotk, hall⟩
          · exact Or.inl hbare
          · refine Or.inr ⟨hnotk, ?_⟩
            intro j q c hj hji hjsel hq
            rcases List.mem_cons.mp hj with heq' | hj'
            · injection heq' with e1 e2
              injection e2 with e2 e3
              subst e1; subst e2
              exact absurd hjsel hnotsel0
            · exact hall j q c hj' hji hjsel hq
        · rintro ⟨hb, hrest⟩
          refine ⟨hb, ?_⟩
          rcases hrest with hbare | ⟨hnotk, hall⟩
          · exact Or.inl hbare
          · refine Or.inr ⟨hnotk, ?_⟩
            intro j q c hj' hji hjsel hq
            exact hall j q c (List.mem_cons_of_mem _ hj') hji hjsel hq

theorem enum_indices_mono (l : List (String × Bool)) :
    (l.enum.map (fun e => e.1)).Pairwise (· < ·) := by
  have h : l.enum.map (fun e => e.1) = List.range l.length := List.enum_map_fst l
  rw [h]
  exact List.pairwise_lt_range l.length

theorem selectIndices_mem_iff (l : List (String × Bool)) (i : Nat) (p : String) (b : Bool)
    (hin : (i, p, b) ∈ l.enum) :
    i ∈ selectIndices l ↔
      (b = true ∧
        (isPartOfRuleSet p = false ∨
          ∀ j q c, (j, q, c) ∈ l.enum → j < i → j ∈ selectIndices l →
            isPartOfRuleSet q = true → ruleIndexOf q ≠ ruleIndexOf p)) := by
  have h := selectAux_mem_iff l.enum [] (enum_indices_mono l) i p b hin
  simpa [selectIndices] using h

theorem selectIndices_group_unique (l : List (String × Bool)) (i j : Nat)
    (p q : String) (bi bj : Bool)
    (hi : (i, p, bi) ∈ l.enum) (hj : (j, q, bj) ∈ l.enum)
    (hseli : i ∈ selectIndices l) (hselj : j ∈ selectIndices l)
    (hsp : isPartOfRuleSet p = true) (hsq : isPartOfRuleSet q = true)
    (hg : ruleIndexOf p = ruleIndexOf q) : i = j := by
  rcases lt_trichotomy i j with hlt | heq | hlt
  · exfalso
    obtain ⟨_, hrest⟩ := (selectIndices_mem_iff l j q bj hj).mp hselj
    rcases hrest with hbare | hall
    · rw [hsq] at hbare; cases hbare
    · exact hall i p bi hi hlt hseli hsp hg
  · exact heq
  · exfalso
    obtain ⟨_, hrest⟩ := (selectIndices_mem_iff l i p bi hi).mp hseli
    rcases hrest with hbare | hall
    · rw [hsp] at hbare; cases hbare
    · exact hall j q bj hj hlt hselj hsq hg.symm

theorem takeWhile_stop_append {α : Type} (pred : α → Bool) (l : List α) (c : α)
    (hc : pred c = false) (t : List α) :
    (l ++ c :: t).takeWhile pred = (l ++ [c]).takeWhile pred := by
  induction l with
  | nil => simp [List.takeWhile, hc]
  | cons a l ih =>
    simp only [List.cons_append, List.takeWhile]
    cases pred a <;> simp [ih]

theorem mapKeyFor_shape (k : Nat) (m : String) :
    ∃ z : String, mapKeyFor k m = (toString k ++ "[") ++ z := by
  unfold mapKeyFor
  by_cases hdot : m.toList.contains '.' = true
  · refine ⟨String.mk (m.toList.takeWhile (fun c => c ≠ '.')) ++ "]" ++
      String.mk (m.toList.dropWhile (fun c => c ≠ '.')), ?_⟩
    simp only [hdot, if_true, String.append_assoc]
  · have hdot' : m.toList.contains '.' = false := by simpa using hdot
    refine ⟨m ++ "]", ?_⟩
    simp only [hdot', Bool.false_eq_true, if_false, String.append_assoc]

theorem toList_bracket_append (s z : String) :
    ((s ++ "[") ++ z).toList = s.toList ++ '[' :: z.toList := by
  simp [String.toList]

theorem isPartOfRuleSet_bracket (s z : String) :
    isPartOfRuleSet ((s ++ "[") ++ z) = true := by
  unfold isPartOfRuleSet
  rw [toList_bracket_append]
  simp

theorem ruleIndexOf_bracket (s z : String) :
    ruleIndexOf ((s ++ "[") ++ z) = ruleIndexOf (s ++ "[") := by
  unfold ruleIndexOf
  rw [toList_bracket_append]
  have h1 : s.toList ++ '[' :: z.toList = s.toList ++ '[' :: z.toList := rfl
  rw [takeWhile_stop_append (fun c => c ≠ '[') s.toList '[' (by simp) z.toList]
  have h2 : (s ++ "[").toList = s.toList ++ ['['] := by simp [String.toList]
  rw [h2]

theorem pmItem_set_group (xs : List RuleItem) (k : Nat) (p : String) (r : Rule)
    (h : (p, r) ∈ pmItem (.set xs) k) :
    isPartOfRuleSet p = true ∧ ruleIndexOf p = ruleIndexOf (toString k ++ "[") := by
  simp only [pmItem, List.mem_map] at h
  obtain ⟨e, _, heq⟩ := h
  have hp : p = mapKeyFor k e.1 := by
    have := congrArg Prod.fst heq
    simpa using this.symm
  obtain ⟨z, hz⟩ := mapKeyFor_shape k e.1
  rw [hp, hz]
  exact ⟨isPartOfRuleSet_bracket _ _, ruleIndexOf_bracket _ _⟩

/-- C2 amended: the selection loop of `processRules` satisfies, for the
`(path, boolean)` pairs it actually folds over (position `index` of the
`Object.keys(getPathMap(rules))` enumeration — which lists bare top-level
rules before nested leaves — paired with `conditionValidationResults[index]`):
a leaf is selected iff its paired boolean is true and it is either a bare
top-level rule (never excluded by the rule-set policy) or no earlier
selected leaf shares its rule-set index; no two selected rule-set leaves
ever share a rule-set index; and all leaves generated inside one
top-level nested array, at any depth, are set members sharing one
rule-set index, so each outer array yields at most one selected leaf. -/
theorem selection_policy_characterization :
    (∀ (l : List (String × Bool)) (i : Nat) (p : String) (b : Bool),
      (i, p, b) ∈ l.enum →
        (i ∈ selectIndices l ↔
          (b = true ∧
            (isPartOfRuleSet p = false ∨
              ∀ j q c, (j, q, c) ∈ l.enum → j < i → j ∈ selectIndices l →
                isPartOfRuleSet q = true → ruleIndexOf q ≠ ruleIndexOf p)))) ∧
    (∀ (l : List (String × Bool)) (i j : Nat) (p q : String) (bi bj : Bool),
      (i, p, bi) ∈ l.enum → (j, q, bj) ∈ l.enum →
        i ∈ selectIndices l → j ∈ selectIndices l →
        isPartOfRuleSet p = true → isPartOfRuleSet q = true →
        ruleIndexOf p = ruleIndexOf q → i = j) ∧
    (∀ (xs : List RuleItem) (k : Nat) (p : String) (r : Rule),
      (p, r) ∈ pmItem (.set xs) k →
        isPartOfRuleSet p = true ∧ ruleIndexOf p = ruleIndexOf (toString k ++ "[")) :=
  ⟨selectIndices_mem_iff, selectIndices_group_unique, pmItem_set_group⟩

/-- Witness for the C2 amended theorem at the concrete enumerated list the
misaligned collection `[[A], B]` produces. -/
theorem selection_policy_characterization_witness :
    ((1, "0[0]", true) ∈ ([("1", false), ("0[0]", true)] : List (String × Bool)).enum) ∧
      (1 ∈ selectIndices [("1", false), ("0[0]", true)] ↔
        (true = true ∧
          (isPartOfRuleSet "0[0]" = false ∨
            ∀ j q c, (j, q, c) ∈ ([("1", false), ("0[0]", true)] :
                List (String × Bool)).enum → j < 1 →
              j ∈ selectIndices [("1", false), ("0[0]", true)] →
              isPartOfRuleSet q = true → ruleIndexOf q ≠ ruleIndexOf "0[0]"))) :=
  ⟨by decide,
    selection_policy_characterization.1 [("1", false), ("0[0]", true)] 1 "0[0]" true (by decide)⟩

/-- exRuleA is a rule-set member whose condition is `{ never }` and whose
effect sets `a = 1`. -/
def exRuleA : Rule := ⟨[.pred "never" []], [⟨"set", [("path", .str "a"), ("value", .num 1)]⟩], []⟩

/-- exRuleB is a bare rule whose condition is `{ always }` and whose
effect sets `b = 2`. -/
def exRuleB : Rule := ⟨[.pred "always" []], [⟨"set", [("path", .str "b"), ("value", .num 2)]⟩], []⟩

/-- exRuleC is a rule-set member whose condition is `{ always }` and whose
effect sets `c = 3`. -/
def exRuleC : Rule := ⟨[.pred "always" []], [⟨"set", [("path", .str "c"), ("value", .num 3)]⟩], []⟩

/-- itemsC1 is the collection `[[A], B]`: a nested rule-set array followed
by a bare top-level rule. -/
def itemsC1 : List RuleItem := [.set [.rule exRuleA], .rule exRuleB]

/-- itemsC2 is the collection `[[A, C], B]`. -/
def itemsC2 : List RuleItem := [.set [.rule exRuleA, .rule exRuleC], .rule exRuleB]

/-- C2 counterexample: on `[[A(never), C(always)], B(always)]` the batch
evaluates the flattened leaves' conditions to `[false, true, true]` (A
false, C true, B true), yet the engine fires only A — whose condition is
false — while the bare rule B, whose condition is true and which no
rule-set policy may exclude, does not fire, and C (the first set member
with a true condition) does not fire either: the claimed
"fires iff its condition evaluated true and no earlier leaf of the same
set was selected" fails in both directions on this input. -/
theorem selection_claim_counterexample :
    ((condExecuteAll defaultConditionResolvers
        ((flattenList itemsC2).map (fun r => r.conditions)) none (.obj [])).1.map isOkTrue =
      [false, true, true]) ∧
      rulePaths itemsC2 = ["1", "0[0]", "0[1]"] ∧
      (processRules defaultConditionResolvers defaultEffectResolvers itemsC2 (.obj [])).2 =
        none ∧
      JVal.jvalEqOpt
        (JVal.getPath
          (processRules defaultConditionResolvers defaultEffectResolvers itemsC2
            (.obj [])).1 "a") (some (.num 1)) = true ∧
      JVal.getPath
        (processRules defaultConditionResolvers defaultEffectResolvers itemsC2 (.obj [])).1
        "b" = none ∧
      JVal.getPath
        (processRules defaultConditionResolvers defaultEffectResolvers itemsC2 (.obj [])).1
        "c" = none := by
  refine ⟨by decide, by decide, by rfl, by decide, by rfl, by rfl⟩

/-- C1: `processRules` pairs the batch's condition results (which are in
`flattenDeep` document order) with positions of the
`Object.keys(getPathMap(rules))` enumeration, and ECMAScript orders the
integer-like keys of bare top-level rules before the bracket string keys
of nested leaves. On `[[A(never)], B(always)]` the enumeration is
`["1", "0[0]"]` while the results are `[false (A), true (B)]`, so the
engine pairs B with A's false and A with B's true: it executes A's
effects (condition `never`) and skips B (condition `always`), and the
executed effects are not in document order — the claimed flattening-order
alignment fails. -/
theorem processRules_keyorder_misalignment :
    ((condExecuteAll defaultConditionResolvers
        ((flattenList itemsC1).map (fun r => r.conditions)) none (.obj [])).1.map isOkTrue =
      [false, true]) ∧
      rulePaths itemsC1 = ["1", "0[0]"] ∧
      (processRules defaultConditionResolvers defaultEffectResolvers itemsC1 (.obj [])).2 =
        none ∧
      JVal.jvalEqOpt
        (JVal.getPath
          (processRules defaultConditionResolvers defaultEffectResolvers itemsC1
            (.obj [])).1 "a") (some (.num 1)) = true ∧
      JVal.getPath
        (processRules defaultConditionResolvers defaultEffectResolvers itemsC1 (.obj [])).1
        "b" = none := by
  refine ⟨by decide, by decide, by rfl, by decide, by rfl⟩

/-- Witness for C10 at a concrete resolver and a concrete batch: the
`isTruthy` resolver returns the context unchanged, and a batch evaluating
it leaves the context it was given. -/
theorem default_condition_resolvers_readonly_witness :
    (defaultConditionResolvers "isTruthy" = some CondDefaults.isTruthy ∧
        CondDefaults.isTruthy [("path", .str "x")] (.obj [("x", .num 5)]) =
          .ok (some (.bool true), .obj [("x", .num 5)]) ∧
        (.obj [("x", .num 5)] : JVal) = .obj [("x", .num 5)]) ∧
      (condExecuteAll defaultConditionResolvers [[.pred "isTruthy" [("path", .str "x")]]]
        none (.obj [("x", .num 5)])).2.ctx = .obj [("x", .num 5)] := by
  refine ⟨⟨by rfl, by rfl, ?_⟩, ?_⟩
  · exact default_condition_resolvers_readonly.1 "isTruthy" CondDefaults.isTruthy (by rfl)
      [("path", .str "x")] (.obj [("x", .num 5)]) (some (.bool true)) (.obj [("x", .num 5)])
      (by rfl) ▸ rfl
  · exact default_condition_resolvers_readonly.2 [[.pred "isTruthy" [("path", .str "x")]]]
      none (.obj [("x", .num 5)])
